import Mathlib

/-!
Verification development for the SwitchWrapper repository.

Shallow embedding conventions:
* Python strings are embedded as `List Char` (called `Tag` for entity
  identifiers).
* Python `int(...)` on entity-tag bodies is embedded as `pyInt`, covering the
  `int()` string grammar over ASCII digits: optional surrounding whitespace,
  an optional sign, and a nonempty digit run optionally grouped by single
  underscores.  `parseNat` is its restriction to sign-less decimal numerals,
  used where the parsed strings are regex captures over `[a-z0-9]+` (branch
  tags, timepoint indices), on which the two agree.
* Python dicts keyed by ints are embedded as association lists in insertion
  order, with `dictInsert` implementing the overwrite-in-place-or-append
  update of a Python dict.  `pandas.Series` built from such a dict preserves
  that key order, so the association list is also the series.
* Functions that can raise a Python exception return `Option`; `none` means
  the call raises (the particular exception class is not modelled).
* Floating-point numbers are embedded as exact rationals; where the code's
  behaviour on the special values NaN/inf matters, the type `PFloat`
  (a rational together with the special values) is used, with division and
  `fillna` given their pandas semantics.
-/

/-- Entity identifier strings (`g12`, `g12i`, `s3i`, `14ac`, ...) embedded as
character lists. -/
def Tag : Type := List Char

instance : DecidableEq Tag := by unfold Tag; infer_instance

instance : Membership Tag (List Tag) := by unfold Tag; infer_instance

/-- Is `c` a decimal digit? -/
def isDigitChar (c : Char) : Bool := ('0' ≤ c) && (c ≤ '9')

/-- Value of a decimal digit character. -/
def digitVal (c : Char) : Nat := c.toNat - '0'.toNat

/-- Character for a decimal digit. -/
def digitChar (d : Nat) : Char := Char.ofNat ('0'.toNat + d)

/-- Embedding of Python `int(s)` restricted to the sign-less decimal numerals
that form regex captures over `[a-z0-9]+` in this repository (branch tags
such as `14ac`, timepoint indices): `some` of the value on a nonempty
all-digit string, `none` (a raised `ValueError`) otherwise. -/
def parseNat (s : List Char) : Option Nat :=
  if s = [] then none
  else if s.all isDigitChar then some (s.foldl (fun a c => 10 * a + digitVal c) 0)
  else none

/-- Decimal digits of `n`, most significant first, by fuel recursion
(`fuel ≥ n` suffices).  Empty on `n = 0`. -/
def natToDecimalAux : Nat → Nat → List Char
  | 0, _ => []
  | _ + 1, 0 => []
  | fuel + 1, n + 1 =>
      natToDecimalAux fuel ((n + 1) / 10) ++ [digitChar ((n + 1) % 10)]

/-- Embedding of Python `str(n)` for a natural number: its decimal numeral. -/
def natToDecimal (n : Nat) : List Char :=
  if n = 0 then ['0'] else natToDecimalAux n n

/-- Tag of an existing generator: `g{id}`. -/
def gTag (n : Nat) : Tag := 'g' :: natToDecimal n

/-- Tag of a hypothetical expansion generator: `g{id}i`. -/
def giTag (n : Nat) : Tag := 'g' :: natToDecimal n ++ ['i']

/-- Tag of a hypothetical storage unit at a bus: `s{bus}i`. -/
def sTag (n : Nat) : Tag := 's' :: natToDecimal n ++ ['i']

theorem natToDecimalAux_ne_nil {fuel n : Nat} (hn : n ≠ 0) (hf : n ≤ fuel) :
    natToDecimalAux fuel n ≠ [] := by
  cases fuel with
  | zero => omega
  | succ f =>
    cases n with
    | zero => omega
    | succ m => simp [natToDecimalAux]

theorem natToDecimal_ne_nil (n : Nat) : natToDecimal n ≠ [] := by
  unfold natToDecimal
  split
  · simp
  · exact natToDecimalAux_ne_nil (by assumption) le_rfl

theorem digitVal_digitChar {d : Nat} (hd : d < 10) : digitVal (digitChar d) = d := by
  interval_cases d <;> decide

theorem isDigitChar_digitChar {d : Nat} (hd : d < 10) : isDigitChar (digitChar d) = true := by
  interval_cases d <;> decide

theorem parseNat_append_digit (s : List Char) (d : Nat) (hd : d < 10) (v : Nat)
    (h : parseNat s = some v) :
    parseNat (s ++ [digitChar d]) = some (10 * v + d) := by
  unfold parseNat at h ⊢
  by_cases hs : s = []
  · simp [hs] at h
  · simp only [hs, if_false] at h
    by_cases hall : s.all isDigitChar
    · simp only [hall, if_true, Option.some.injEq] at h
      have hne : s ++ [digitChar d] ≠ [] := by simp
      have hall' : (s ++ [digitChar d]).all isDigitChar = true := by
        simp [List.all_append, hall, isDigitChar_digitChar hd]
      simp [hne, hall', List.foldl_append, h, digitVal_digitChar hd]
    · simp [hall] at h

theorem parseNat_natToDecimalAux {fuel n : Nat} (hn : n ≠ 0) (hf : n ≤ fuel) :
    parseNat (natToDecimalAux fuel n) = some n := by
  induction fuel using Nat.strong_induction_on generalizing n with
  | _ fuel ih =>
    cases fuel with
    | zero => omega
    | succ f =>
      cases n with
      | zero => omega
      | succ m =>
        show parseNat (natToDecimalAux f ((m + 1) / 10) ++ [digitChar ((m + 1) % 10)])
          = some (m + 1)
        by_cases hq : (m + 1) / 10 = 0
        · have hm : m + 1 < 10 := by omega
          have : natToDecimalAux f ((m + 1) / 10) = [] := by
            rw [hq]; cases f <;> rfl
          rw [this]
          simp only [List.nil_append]
          have hlt : (m + 1) % 10 < 10 := Nat.mod_lt _ (by omega)
          unfold parseNat
          rw [Nat.mod_eq_of_lt hm]
          simp [isDigitChar_digitChar hm, digitVal_digitChar hm]
        · have hql : (m + 1) / 10 ≤ f := by
            have := Nat.div_lt_self (Nat.succ_pos m) (by omega : 1 < 10)
            omega
          have hrec := ih f (by omega) hq hql
          have hlt : (m + 1) % 10 < 10 := Nat.mod_lt _ (by omega)
          have := parseNat_append_digit _ _ hlt _ hrec
          rw [this]
          congr 1
          omega

/-- Printing a natural number in decimal and parsing it back is the
identity. -/
theorem parseNat_natToDecimal (n : Nat) : parseNat (natToDecimal n) = some n := by
  unfold natToDecimal
  by_cases h : n = 0
  · subst h; decide
  · simp only [h, if_false]
    exact parseNat_natToDecimalAux h le_rfl

/-- Injectivity of the decimal printer. -/
theorem natToDecimal_injective : Function.Injective natToDecimal := by
  intro a b h
  have ha := parseNat_natToDecimal a
  have hb := parseNat_natToDecimal b
  rw [h, hb] at ha
  exact (Option.some.injEq _ _).mp ha.symm

/-- Code points of the whitespace characters Python `int()` strips around a
numeral. -/
def isPyIntSpace (c : Char) : Bool :=
  decide (c.toNat ∈ [9, 10, 11, 12, 13, 28, 29, 30, 31, 32, 133, 160, 5760,
    8192, 8193, 8194, 8195, 8196, 8197, 8198, 8199, 8200, 8201, 8202, 8232,
    8233, 8239, 8287, 12288])

/-- Python `str.strip` of the whitespace recognised by `int()`. -/
def pyStrip (s : List Char) : List Char :=
  ((s.dropWhile isPyIntSpace).reverse.dropWhile isPyIntSpace).reverse

/-- Continuation of the digit run of an `int()` literal, with single
underscores allowed between digits (PEP 515): `afterUnderscore` records
whether the previous character was an underscore, so doubled or trailing
underscores are rejected; accumulates the value in `acc`. -/
def pyDigitsAux (acc : Nat) (afterUnderscore : Bool) : List Char → Option Nat
  | [] => if afterUnderscore then none else some acc
  | c :: r =>
      if c = '_' then
        if afterUnderscore then none else pyDigitsAux acc true r
      else if isDigitChar c then pyDigitsAux (10 * acc + digitVal c) false r
      else none

/-- The digit part of an `int()` literal: at least one leading digit, then
digits optionally grouped by single underscores. -/
def pyDigits : List Char → Option Nat
  | [] => none
  | c :: r => if isDigitChar c then pyDigitsAux (digitVal c) false r else none

/-- Optional sign and digit run of Python `int()`, after stripping. -/
def pyIntBody : List Char → Option Int
  | [] => none
  | c :: r =>
      if c = '+' then (pyDigits r).map (fun n => (n : Int))
      else if c = '-' then (pyDigits r).map (fun n => -(n : Int))
      else (pyDigits (c :: r)).map (fun n => (n : Int))

/-- Embedding of Python `int(s)` on strings over the ASCII alphabet: optional
surrounding whitespace, an optional sign and a nonempty run of decimal digits
optionally grouped by single underscores; `none` models the raised
`ValueError`.  (Python additionally accepts the decimal digits of non-ASCII
scripts; the identifier tags of this system are ASCII, and the theorems that
conclude a raise from `pyInt = none` carry an explicit ASCII-alphabet
hypothesis.) -/
def pyInt (s : List Char) : Option Int := pyIntBody (pyStrip s)

theorem pyDigitsAux_cons (acc : Nat) (b : Bool) (c : Char) (r : List Char) :
    pyDigitsAux acc b (c :: r) =
      if c = '_' then (if b then none else pyDigitsAux acc true r)
      else if isDigitChar c then pyDigitsAux (10 * acc + digitVal c) false r
      else none := rfl

theorem pyDigits_cons (c : Char) (r : List Char) :
    pyDigits (c :: r) =
      if isDigitChar c then pyDigitsAux (digitVal c) false r else none := rfl

theorem pyIntBody_cons (c : Char) (r : List Char) :
    pyIntBody (c :: r) =
      if c = '+' then (pyDigits r).map (fun n => (n : Int))
      else if c = '-' then (pyDigits r).map (fun n => -(n : Int))
      else (pyDigits (c :: r)).map (fun n => (n : Int)) := rfl

theorem toNat_bounds_of_isDigitChar {c : Char} (h : isDigitChar c = true) :
    48 ≤ c.toNat ∧ c.toNat ≤ 57 := by
  unfold isDigitChar at h
  rw [Bool.and_eq_true, decide_eq_true_eq, decide_eq_true_eq] at h
  exact ⟨h.1, h.2⟩

theorem isPyIntSpace_of_digit {c : Char} (h : isDigitChar c = true) :
    isPyIntSpace c = false := by
  obtain ⟨h1, h2⟩ := toNat_bounds_of_isDigitChar h
  unfold isPyIntSpace
  rw [decide_eq_false_iff_not]
  simp only [List.mem_cons, List.not_mem_nil, or_false]
  omega

theorem ne_underscore_of_digit {c : Char} (h : isDigitChar c = true) : c ≠ '_' := by
  intro heq; rw [heq] at h; exact absurd h (by decide)

theorem ne_plus_of_digit {c : Char} (h : isDigitChar c = true) : c ≠ '+' := by
  intro heq; rw [heq] at h; exact absurd h (by decide)

theorem ne_minus_of_digit {c : Char} (h : isDigitChar c = true) : c ≠ '-' := by
  intro heq; rw [heq] at h; exact absurd h (by decide)

theorem dropWhile_eq_self_of_all {p : Char → Bool} {s : List Char}
    (h : ∀ c ∈ s, p c = false) : s.dropWhile p = s := by
  cases s with
  | nil => rfl
  | cons c r =>
    rw [List.dropWhile_cons, h c (List.mem_cons_self _ _)]
    simp

/-- Stripping is the identity on all-digit strings. -/
theorem pyStrip_of_all_digits {s : List Char} (h : s.all isDigitChar = true) :
    pyStrip s = s := by
  have hall : ∀ c ∈ s, isDigitChar c = true := by
    intro c hc
    simpa using List.all_eq_true.mp h c hc
  have h1 : s.dropWhile isPyIntSpace = s :=
    dropWhile_eq_self_of_all (fun c hc => isPyIntSpace_of_digit (hall c hc))
  have h2 : s.reverse.dropWhile isPyIntSpace = s.reverse :=
    dropWhile_eq_self_of_all
      (fun c hc => isPyIntSpace_of_digit (hall c (List.mem_reverse.mp hc)))
  unfold pyStrip
  rw [h1, h2, List.reverse_reverse]

theorem pyDigitsAux_of_all_digits {s : List Char}
    (hdig : ∀ c ∈ s, isDigitChar c = true) (acc : Nat) :
    pyDigitsAux acc false s =
      some (s.foldl (fun a c => 10 * a + digitVal c) acc) := by
  induction s generalizing acc with
  | nil => rfl
  | cons c r ih =>
    have hc : isDigitChar c = true := hdig c (List.mem_cons_self _ _)
    rw [pyDigitsAux_cons, if_neg (ne_underscore_of_digit hc), if_pos hc,
      List.foldl_cons]
    exact ih (fun d hd => hdig d (List.mem_cons_of_mem _ hd)) _

/-- `pyInt` agrees with `parseNat` wherever the latter succeeds. -/
theorem pyInt_of_parseNat {s : List Char} {v : Nat} (h : parseNat s = some v) :
    pyInt s = some (v : Int) := by
  unfold parseNat at h
  by_cases hs : s = []
  · simp [hs] at h
  · simp only [hs, if_false] at h
    by_cases hall : s.all isDigitChar
    · simp only [hall, if_true, Option.some.injEq] at h
      have hdig : ∀ c ∈ s, isDigitChar c = true := by
        intro c hc
        simpa using List.all_eq_true.mp hall c hc
      unfold pyInt
      rw [pyStrip_of_all_digits hall]
      cases s with
      | nil => exact absurd rfl hs
      | cons c r =>
        have hc : isDigitChar c = true := hdig c (List.mem_cons_self _ _)
        rw [pyIntBody_cons, if_neg (ne_plus_of_digit hc),
          if_neg (ne_minus_of_digit hc), pyDigits_cons, if_pos hc,
          pyDigitsAux_of_all_digits (fun d hd => hdig d (List.mem_cons_of_mem _ hd))]
        rw [List.foldl_cons] at h
        have hv : r.foldl (fun a c => 10 * a + digitVal c) (digitVal c) = v := by
          simpa using h
        rw [hv]
        rfl
    · simp [hall] at h

/-- Printing a natural number in decimal and applying `int()` recovers it. -/
theorem pyInt_natToDecimal (n : Nat) : pyInt (natToDecimal n) = some (n : Int) :=
  pyInt_of_parseNat (parseNat_natToDecimal n)

/-- Python-dict update on an association list (keys are Python ints, so the
key type is `Int`): overwrite the value at an existing key in place,
otherwise append the new binding. -/
def dictInsert : List (Int × Tag) → Int → Tag → List (Int × Tag)
  | [], k, v => [(k, v)]
  | (k', v') :: r, k, v =>
      if k' = k then (k', v) :: r else (k', v') :: dictInsert r k v

/-- Python-dict lookup on an association list. -/
def dictLookup : List (Int × Tag) → Int → Option Tag
  | [], _ => none
  | (k', v') :: r, k => if k' = k then some v' else dictLookup r k

/-- Is every character of the tag ASCII?  This scopes the fidelity of
`pyInt`: Python `int()` additionally accepts the decimal digits of non-ASCII
scripts, which `pyInt` does not model (the tags of this system are ASCII). -/
def isAsciiTag (t : Tag) : Bool := t.all (fun c => c.toNat < 128)

/-- Does the tag end in the hypothetical marker `i`?  (Python `ind[-1] != "i"`
distinguishes existing from hypothetical; an empty tag raises there, which the
callers below model separately.) -/
def endsInI (t : Tag) : Bool := t.getLast? == some 'i'

/-- First pass of `recover_plant_indices` (helpers.py lines 137-140),
iterating over the already-reversed tag list: find the first tag not ending
in `i` and apply `int()` to its numeric body.  `some (some l)` means
`last_original_plant_id` was bound to `l`; `some none` means the loop
finished without binding it (every tag ends in `i`); `none` means the loop
raised (`IndexError` on an empty tag, or `ValueError` from `int()`). -/
def lastOriginalIdRev : List Tag → Option (Option Int)
  | [] => some none
  | t :: ts =>
      match t.getLast? with
      | none => none
      | some c =>
          if c = 'i' then lastOriginalIdRev ts else (pyInt (t.drop 1)).map some

/-- Second pass of `recover_plant_indices` (helpers.py lines 144-153): walk
the tags in input order, putting existing tags into the plant dict under
their `int()`-parsed id, and hypothetical tags under
`last_original_plant_id + cnt` into the storage dict (prefix `s`) or the
plant dict (otherwise), with the shared counter `cnt`. -/
def recoverPass2 (last : Int) :
    List Tag → List (Int × Tag) → List (Int × Tag) → Nat →
    Option (List (Int × Tag) × List (Int × Tag))
  | [], pm, sm, _ => some (pm, sm)
  | t :: ts, pm, sm, cnt =>
      match t.getLast? with
      | none => none
      | some c =>
          if c = 'i' then
            if t.head? = some 's' then
              recoverPass2 last ts pm (dictInsert sm (last + cnt + 1) t) (cnt + 1)
            else
              recoverPass2 last ts (dictInsert pm (last + cnt + 1) t) sm (cnt + 1)
          else
            match pyInt (t.drop 1) with
            | none => none
            | some id => recoverPass2 last ts (dictInsert pm id t) sm cnt

/-- Embedding of `recover_plant_indices` (helpers.py lines 124-154).  Returns
the pair of the plant and storage series (as insertion-ordered association
lists); `none` models a raised exception.  When pass 1 finishes without
binding `last_original_plant_id` (which happens exactly when every tag ends
in `i`): if the reference floor is supplied, the `max(...)` line at 141-142
raises `NameError` on the unbound variable; otherwise that line is skipped
and pass 2 raises `NameError` at its first tag — so only the empty tag list
reaches line 154, returning a pair of empty series. -/
def recover_plant_indices (switch_plant_ids : List Tag)
    (ref_last_original_plant_id : Option Int := none) :
    Option (List (Int × Tag) × List (Int × Tag)) :=
  match lastOriginalIdRev switch_plant_ids.reverse with
  | none => none
  | some (some l) =>
      let last := match ref_last_original_plant_id with
                  | none => l
                  | some r => max l r
      recoverPass2 last switch_plant_ids [] [] 0
  | some none =>
      match ref_last_original_plant_id with
      | some _ => none
      | none =>
          match switch_plant_ids with
          | [] => some ([], [])
          | _ :: _ => none

/-- Insertion sort on naturals, used to embed Python `sorted`. -/
def insertSorted (n : Nat) : List Nat → List Nat
  | [] => [n]
  | m :: r => if n ≤ m then n :: m :: r else m :: insertSorted n r

/-- Python `sorted` on a list of naturals. -/
def pySorted (l : List Nat) : List Nat := l.foldr insertSorted []

/-- Embedding of `make_plant_indices` (helpers.py lines 31-45): the `existing`,
`expansion` and `storage` index lists for input to Switch. -/
def make_plant_indices (plant_ids : List Nat) (storage_candidates : Option (List Nat)) :
    List Tag × List Tag × List Tag :=
  let existing := plant_ids.map gTag
  let expansion := existing.map (fun e => e ++ ['i'])
  let storage := match storage_candidates with
                 | none => []
                 | some s => (pySorted s.dedup).map sTag
  (existing, expansion, storage)

/-- The list of hypothetical tags (those ending in `i`) in input order; the
synthesized-id counter of `recover_plant_indices` advances once per element of
this list. -/
def hypTags (tags : List Tag) : List Tag := tags.filter endsInI

/-- Specification-side description of pass 1: `some (some l)` when the last
tag in input order not ending in `i` has `int()`-parsable body `l`;
`some none` when every tag ends in `i`; `none` when `int()` raises on that
last tag's body (an empty tag, whose `ind[-1]` raises `IndexError`, also
lands here because its body `int()`-fails). -/
def specLastExisting (tags : List Tag) : Option (Option Int) :=
  match (tags.filter (fun t => !endsInI t)).getLast? with
  | none => some none
  | some t => (pyInt (t.drop 1)).map some

/-- Fold a list of bindings into a Python dict. -/
def insertAll (m : List (Int × Tag)) (l : List (Int × Tag)) : List (Int × Tag) :=
  l.foldl (fun m p => dictInsert m p.1 p.2) m

theorem dictLookup_dictInsert_self (m : List (Int × Tag)) (k : Int) (v : Tag) :
    dictLookup (dictInsert m k v) k = some v := by
  induction m with
  | nil => simp [dictInsert, dictLookup]
  | cons p r ih =>
    obtain ⟨k', v'⟩ := p
    by_cases h : k' = k
    · simp [dictInsert, dictLookup, h]
    · simp [dictInsert, dictLookup, h, ih]

theorem dictLookup_dictInsert_ne (m : List (Int × Tag)) {k' k : Int} (v : Tag)
    (h : k' ≠ k) : dictLookup (dictInsert m k' v) k = dictLookup m k := by
  induction m with
  | nil => simp [dictInsert, dictLookup, h]
  | cons p r ih =>
    obtain ⟨k'', v''⟩ := p
    by_cases h2 : k'' = k'
    · subst h2
      show dictLookup (if k'' = k'' then (k'', v) :: r else _) k = _
      rw [if_pos rfl]
      show (if k'' = k then some v else dictLookup r k) =
        (if k'' = k then some v'' else dictLookup r k)
      rw [if_neg h, if_neg h]
    · show dictLookup (if k'' = k' then _ else (k'', v'') :: dictInsert r k' v) k = _
      rw [if_neg h2]
      show (if k'' = k then some v'' else dictLookup (dictInsert r k' v) k) =
        (if k'' = k then some v'' else dictLookup r k)
      by_cases h3 : k'' = k
      · rw [if_pos h3, if_pos h3]
      · rw [if_neg h3, if_neg h3, ih]

theorem mem_dictInsert {p : Int × Tag} {m : List (Int × Tag)} {k : Int} {v : Tag}
    (h : p ∈ dictInsert m k v) : p ∈ m ∨ p = (k, v) := by
  induction m with
  | nil => simpa [dictInsert] using h
  | cons q r ih =>
    obtain ⟨k', v'⟩ := q
    by_cases h2 : k' = k
    · simp only [dictInsert, h2, if_true] at h
      rcases List.mem_cons.mp h with h | h
      · right; rw [h]
      · left; exact List.mem_cons_of_mem _ h
    · simp only [dictInsert, h2, if_false] at h
      rcases List.mem_cons.mp h with h | h
      · left; rw [h]; exact List.mem_cons_self _ _
      · rcases ih h with h | h
        · left; exact List.mem_cons_of_mem _ h
        · right; exact h

theorem mem_insertAll {p : Int × Tag} {m l : List (Int × Tag)}
    (h : p ∈ insertAll m l) : p ∈ m ∨ p ∈ l := by
  induction l generalizing m with
  | nil => left; exact h
  | cons q r ih =>
    have h2 : p ∈ insertAll (dictInsert m q.1 q.2) r := h
    rcases ih h2 with h3 | h3
    · rcases mem_dictInsert h3 with h4 | h4
      · left; exact h4
      · right; rw [h4]; exact List.mem_cons_self _ _
    · right; exact List.mem_cons_of_mem _ h3

theorem lookup_insertAll_of_all_eq {l : List (Int × Tag)} {k : Int} {v : Tag}
    {m : List (Int × Tag)}
    (h1 : (k, v) ∈ l ∨ dictLookup m k = some v)
    (h2 : ∀ v', (k, v') ∈ l → v' = v) :
    dictLookup (insertAll m l) k = some v := by
  induction l generalizing m with
  | nil =>
    rcases h1 with h | h
    · simp at h
    · exact h
  | cons p r ih =>
    obtain ⟨kp, vp⟩ := p
    show dictLookup (insertAll (dictInsert m kp vp) r) k = some v
    by_cases hk : kp = k
    · subst hk
      have hv : vp = v := h2 vp (List.mem_cons_self _ _)
      apply ih
      · right
        rw [hv]
        exact dictLookup_dictInsert_self m kp v
      · intro v' hv'; exact h2 v' (List.mem_cons_of_mem _ hv')
    · apply ih
      · rcases h1 with h | h
        · rcases List.mem_cons.mp h with h | h
          · exact absurd (congrArg Prod.fst h).symm hk
          · left; exact h
        · right; rw [dictLookup_dictInsert_ne m vp hk]; exact h
      · intro v' hv'; exact h2 v' (List.mem_cons_of_mem _ hv')

theorem lookup_insertAll_none {l : List (Int × Tag)} {k : Int}
    {m : List (Int × Tag)}
    (hm : dictLookup m k = none)
    (hl : ∀ v, (k, v) ∉ l) :
    dictLookup (insertAll m l) k = none := by
  induction l generalizing m with
  | nil => exact hm
  | cons p r ih =>
    obtain ⟨kp, vp⟩ := p
    show dictLookup (insertAll (dictInsert m kp vp) r) k = none
    have hk : kp ≠ k := by
      intro h
      exact hl vp (by rw [h]; exact List.mem_cons_self _ _)
    apply ih
    · rw [dictLookup_dictInsert_ne m vp hk]; exact hm
    · intro v hv; exact hl v (List.mem_cons_of_mem _ hv)

theorem getLast?_natToDecimal (n : Nat) :
    (natToDecimal n).getLast? = some (digitChar (n % 10)) := by
  unfold natToDecimal
  by_cases h : n = 0
  · subst h; decide
  · simp only [h, if_false]
    cases n with
    | zero => omega
    | succ m => simp [natToDecimalAux, List.getLast?_append]

theorem digitChar_ne_i {d : Nat} (hd : d < 10) : digitChar d ≠ 'i' := by
  interval_cases d <;> decide

theorem endsInI_gTag (n : Nat) : endsInI (gTag n) = false := by
  unfold endsInI gTag
  have h1 : (natToDecimal n).getLast? = some (digitChar (n % 10)) := getLast?_natToDecimal n
  have h2 : ('g' :: natToDecimal n).getLast? = some (digitChar (n % 10)) := by
    rw [List.getLast?_cons]
    simp [h1]
  rw [h2]
  simp only [beq_eq_false_iff_ne, ne_eq, Option.some.injEq]
  exact digitChar_ne_i (Nat.mod_lt _ (by omega))

theorem gTag_drop_one (n : Nat) : (gTag n).drop 1 = natToDecimal n := rfl

theorem gTag_getLast? (n : Nat) : (gTag n).getLast? = some (digitChar (n % 10)) := by
  unfold gTag
  rw [List.getLast?_cons]
  simp [getLast?_natToDecimal n]

/-- Pass 1 over the reversed list equals the specification: the `int()` value
of the numeric body of the last non-hypothetical tag in input order, with the
unbound and raising outcomes as described at `specLastExisting`. -/
theorem lastOriginalIdRev_reverse_eq (tags : List Tag) :
    lastOriginalIdRev tags.reverse = specLastExisting tags := by
  induction tags using List.reverseRecOn with
  | nil => rfl
  | append_singleton ts t ih =>
    rw [List.reverse_append]
    show lastOriginalIdRev (t :: ts.reverse) = _
    unfold specLastExisting
    rw [List.filter_append]
    unfold lastOriginalIdRev
    cases ht : t.getLast? with
    | none =>
      have hnil : t = [] := by
        cases t with
        | nil => rfl
        | cons c r => rw [List.getLast?_cons] at ht; cases hr : r.getLast? <;> simp [hr] at ht
      have hfilter : List.filter (fun t => !endsInI t) [t] = [t] := by
        subst hnil; rfl
      rw [hfilter, List.getLast?_append]
      subst hnil
      rfl
    | some c =>
      by_cases hc : c = 'i'
      · subst hc
        have hi : endsInI t = true := by simp [endsInI, ht]
        have hfilter : List.filter (fun t => !endsInI t) [t] = [] := by simp [hi]
        rw [hfilter, List.append_nil]
        show (if 'i' = 'i' then lastOriginalIdRev ts.reverse else _) = _
        rw [if_pos rfl]
        exact ih
      · have hi : endsInI t = false := by simp [endsInI, ht, hc]
        have hfilter : List.filter (fun t => !endsInI t) [t] = [t] := by simp [hi]
        rw [hfilter, List.getLast?_append]
        simp [hc]

/-- Specification of the plant-dict bindings produced by pass 2, as a plain
list of key/value pairs in insertion order, with the hypothetical counter made
explicit.  (The `none` parse branch is unreachable under the well-formedness
hypotheses used below.) -/
def plantPairs (last : Int) : Nat → List Tag → List (Int × Tag)
  | _, [] => []
  | cnt, t :: ts =>
      if endsInI t then
        if t.head? = some 's' then plantPairs last (cnt + 1) ts
        else (last + cnt + 1, t) :: plantPairs last (cnt + 1) ts
      else
        match pyInt (t.drop 1) with
        | some id => (id, t) :: plantPairs last cnt ts
        | none => plantPairs last cnt ts

/-- Specification of the storage-dict bindings produced by pass 2. -/
def storagePairs (last : Int) : Nat → List Tag → List (Int × Tag)
  | _, [] => []
  | cnt, t :: ts =>
      if endsInI t then
        if t.head? = some 's' then (last + cnt + 1, t) :: storagePairs last (cnt + 1) ts
        else storagePairs last (cnt + 1) ts
      else storagePairs last cnt ts

theorem plantPairs_nil (last : Int) (cnt : Nat) : plantPairs last cnt [] = [] := rfl

theorem plantPairs_cons (last : Int) (cnt : Nat) (t : Tag) (ts : List Tag) :
    plantPairs last cnt (t :: ts) =
      if endsInI t then
        if t.head? = some 's' then plantPairs last (cnt + 1) ts
        else (last + cnt + 1, t) :: plantPairs last (cnt + 1) ts
      else
        match pyInt (t.drop 1) with
        | some id => (id, t) :: plantPairs last cnt ts
        | none => plantPairs last cnt ts := rfl

theorem storagePairs_nil (last : Int) (cnt : Nat) : storagePairs last cnt [] = [] := rfl

theorem storagePairs_cons (last : Int) (cnt : Nat) (t : Tag) (ts : List Tag) :
    storagePairs last cnt (t :: ts) =
      if endsInI t then
        if t.head? = some 's' then
          (last + cnt + 1, t) :: storagePairs last (cnt + 1) ts
        else storagePairs last (cnt + 1) ts
      else storagePairs last cnt ts := rfl

theorem insertAll_nil (m : List (Int × Tag)) : insertAll m [] = m := rfl

theorem insertAll_cons (m : List (Int × Tag)) (p : Int × Tag) (l : List (Int × Tag)) :
    insertAll m (p :: l) = insertAll (dictInsert m p.1 p.2) l := rfl

/-- Pass 2 succeeds on well-formed tags and produces exactly the dicts built
from `plantPairs` and `storagePairs`. -/
theorem recoverPass2_eq (last : Int) (tags : List Tag)
    (hwf : ∀ t ∈ tags, endsInI t = false → pyInt (t.drop 1) ≠ none)
    (hne : ∀ t ∈ tags, t ≠ []) :
    ∀ pm sm cnt,
    recoverPass2 last tags pm sm cnt =
      some (insertAll pm (plantPairs last cnt tags),
            insertAll sm (storagePairs last cnt tags)) := by
  induction tags with
  | nil => intro pm sm cnt; rfl
  | cons t ts ih =>
    intro pm sm cnt
    have htne : t ≠ [] := hne t (List.mem_cons_self _ _)
    have hwf' : ∀ u ∈ ts, endsInI u = false → pyInt (u.drop 1) ≠ none :=
      fun u hu => hwf u (List.mem_cons_of_mem _ hu)
    have hne' : ∀ u ∈ ts, u ≠ [] := fun u hu => hne u (List.mem_cons_of_mem _ hu)
    obtain ⟨c, hc⟩ : ∃ c, t.getLast? = some c :=
      ⟨t.getLast htne, List.getLast?_eq_getLast t htne⟩
    rw [plantPairs_cons, storagePairs_cons]
    by_cases hci : c = 'i'
    · subst hci
      have hi : endsInI t = true := by simp [endsInI, hc]
      rw [if_pos hi, if_pos hi]
      by_cases hs : t.head? = some 's'
      · rw [if_pos hs, if_pos hs, insertAll_cons]
        show (match t.getLast? with
              | none => none
              | some c =>
                if c = 'i' then
                  if t.head? = some 's' then
                    recoverPass2 last ts pm (dictInsert sm (last + cnt + 1) t) (cnt + 1)
                  else
                    recoverPass2 last ts (dictInsert pm (last + cnt + 1) t) sm (cnt + 1)
                else
                  match pyInt (t.drop 1) with
                  | none => none
                  | some id => recoverPass2 last ts (dictInsert pm id t) sm cnt) = _
        rw [hc]
        show (if 'i' = 'i' then _ else _) = _
        rw [if_pos rfl, if_pos hs]
        exact ih hwf' hne' pm (dictInsert sm (last + cnt + 1) t) (cnt + 1)
      · rw [if_neg hs, if_neg hs, insertAll_cons]
        show (match t.getLast? with
              | none => none
              | some c =>
                if c = 'i' then
                  if t.head? = some 's' then
                    recoverPass2 last ts pm (dictInsert sm (last + cnt + 1) t) (cnt + 1)
                  else
                    recoverPass2 last ts (dictInsert pm (last + cnt + 1) t) sm (cnt + 1)
                else
                  match pyInt (t.drop 1) with
                  | none => none
                  | some id => recoverPass2 last ts (dictInsert pm id t) sm cnt) = _
        rw [hc]
        show (if 'i' = 'i' then _ else _) = _
        rw [if_pos rfl, if_neg hs]
        exact ih hwf' hne' (dictInsert pm (last + cnt + 1) t) sm (cnt + 1)
    · have hi : endsInI t = false := by simp [endsInI, hc, hci]
      obtain ⟨id, hid⟩ : ∃ id, pyInt (t.drop 1) = some id := by
        cases hp : pyInt (t.drop 1) with
        | none => exact absurd hp (hwf t (List.mem_cons_self _ _) hi)
        | some id => exact ⟨id, rfl⟩
      rw [if_neg (by simp [hi]), if_neg (by simp [hi]), hid, insertAll_cons]
      show (match t.getLast? with
            | none => none
            | some c =>
              if c = 'i' then
                if t.head? = some 's' then
                  recoverPass2 last ts pm (dictInsert sm (last + cnt + 1) t) (cnt + 1)
                else
                  recoverPass2 last ts (dictInsert pm (last + cnt + 1) t) sm (cnt + 1)
              else
                match pyInt (t.drop 1) with
                | none => none
                | some id => recoverPass2 last ts (dictInsert pm id t) sm cnt) = _
      rw [hc]
      show (if c = 'i' then _ else
            match pyInt (t.drop 1) with
            | none => none
            | some id => recoverPass2 last ts (dictInsert pm id t) sm cnt) = _
      rw [if_neg hci, hid]
      show recoverPass2 last ts (dictInsert pm id t) sm cnt = _
      exact ih hwf' hne' (dictInsert pm id t) sm cnt

theorem hypTags_cons (t : Tag) (ts : List Tag) :
    hypTags (t :: ts) = if endsInI t then t :: hypTags ts else hypTags ts := by
  simp [hypTags, List.filter_cons]

theorem gTag_injective {m n : Nat} (h : gTag m = gTag n) : m = n :=
  natToDecimal_injective (by injection h)

theorem endsInI_concat_i (l : List Char) : endsInI (l ++ ['i']) = true := by
  simp [endsInI, List.getLast?_concat]

theorem gTag_ne_of_endsInI {u : Tag} (n : Nat) (h : endsInI u = true) : gTag n ≠ u := by
  intro heq
  have h1 := endsInI_gTag n
  rw [heq, h] at h1
  cases h1

/-- Existing tags land in `plantPairs` under their parsed id. -/
theorem mem_plantPairs_existing (last : Int) {tags : List Tag} {n : Nat}
    (h : gTag n ∈ tags) : ∀ cnt, ((n : Int), gTag n) ∈ plantPairs last cnt tags := by
  induction tags with
  | nil => cases h
  | cons t ts ih =>
    intro cnt
    rw [plantPairs_cons]
    rcases List.mem_cons.mp h with heq | hmem
    · have hi : endsInI t = false := by rw [← heq]; exact endsInI_gTag n
      rw [if_neg (by simp [hi]), ← heq, gTag_drop_one, pyInt_natToDecimal]
      exact List.mem_cons_self _ _
    · by_cases hi : endsInI t = true
      · rw [if_pos hi]
        by_cases hs : t.head? = some 's'
        · rw [if_pos hs]; exact ih hmem (cnt + 1)
        · rw [if_neg hs]; exact List.mem_cons_of_mem _ (ih hmem (cnt + 1))
      · rw [if_neg hi]
        cases hp : pyInt (t.drop 1) with
        | none => exact ih hmem cnt
        | some id => exact List.mem_cons_of_mem _ (ih hmem cnt)

/-- The `j`-th hypothetical tag (0-based, non-storage) lands in `plantPairs`
under key `last + cnt + j + 1`. -/
theorem hyp_mem_plantPairs (last : Int) {tags : List Tag} :
    ∀ (cnt j : Nat) (u : Tag), (hypTags tags).get? j = some u → u.head? ≠ some 's' →
      (last + cnt + j + 1, u) ∈ plantPairs last cnt tags := by
  induction tags with
  | nil => intro cnt j u hu; simp [hypTags] at hu
  | cons t ts ih =>
    intro cnt j u hu hs
    rw [plantPairs_cons]
    by_cases hi : endsInI t = true
    · rw [hypTags_cons, if_pos hi] at hu
      rw [if_pos hi]
      cases j with
      | zero =>
        rw [List.get?_cons_zero] at hu
        have ht : t = u := by injection hu
        subst ht
        rw [if_neg hs]
        have hkey : last + (cnt : Int) + ((0 : Nat) : Int) + 1 =
            last + (cnt : Int) + 1 := by omega
        rw [hkey]
        exact List.mem_cons_self _ _
      | succ j' =>
        rw [List.get?_cons_succ] at hu
        have hkey : last + (cnt : Int) + ((j' + 1 : Nat) : Int) + 1 =
            last + ((cnt + 1 : Nat) : Int) + (j' : Int) + 1 := by omega
        rw [hkey]
        by_cases hs' : t.head? = some 's'
        · rw [if_pos hs']
          exact ih (cnt + 1) j' u hu hs
        · rw [if_neg hs']
          exact List.mem_cons_of_mem _ (ih (cnt + 1) j' u hu hs)
    · rw [hypTags_cons, if_neg hi] at hu
      rw [if_neg hi]
      cases hp : pyInt (t.drop 1) with
      | none => exact ih cnt j u hu hs
      | some id => exact List.mem_cons_of_mem _ (ih cnt j u hu hs)

/-- The `j`-th hypothetical tag (0-based, storage-prefixed) lands in
`storagePairs` under key `last + cnt + j + 1`. -/
theorem hyp_mem_storagePairs (last : Int) {tags : List Tag} :
    ∀ (cnt j : Nat) (u : Tag), (hypTags tags).get? j = some u → u.head? = some 's' →
      (last + cnt + j + 1, u) ∈ storagePairs last cnt tags := by
  induction tags with
  | nil => intro cnt j u hu; simp [hypTags] at hu
  | cons t ts ih =>
    intro cnt j u hu hs
    rw [storagePairs_cons]
    by_cases hi : endsInI t = true
    · rw [hypTags_cons, if_pos hi] at hu
      rw [if_pos hi]
      cases j with
      | zero =>
        rw [List.get?_cons_zero] at hu
        have ht : t = u := by injection hu
        subst ht
        rw [if_pos hs]
        have hkey : last + (cnt : Int) + ((0 : Nat) : Int) + 1 =
            last + (cnt : Int) + 1 := by omega
        rw [hkey]
        exact List.mem_cons_self _ _
      | succ j' =>
        rw [List.get?_cons_succ] at hu
        have hkey : last + (cnt : Int) + ((j' + 1 : Nat) : Int) + 1 =
            last + ((cnt + 1 : Nat) : Int) + (j' : Int) + 1 := by omega
        rw [hkey]
        by_cases hs' : t.head? = some 's'
        · rw [if_pos hs']
          exact List.mem_cons_of_mem _ (ih (cnt + 1) j' u hu hs)
        · rw [if_neg hs']
          exact ih (cnt + 1) j' u hu hs
    · rw [hypTags_cons, if_neg hi] at hu
      rw [if_neg hi]
      exact ih cnt j u hu hs

/-- Every binding of `plantPairs` is either an existing tag under its own id
or the `j`-th hypothetical (non-storage) tag under key `last + cnt + j + 1`. -/
theorem mem_plantPairs_char (last : Int) {tags : List Tag}
    (hwf : ∀ t ∈ tags, (∃ n, t = gTag n) ∨ endsInI t = true) :
    ∀ (cnt : Nat) (p : Int × Tag), p ∈ plantPairs last cnt tags →
      (∃ n : Nat, p = ((n : Int), gTag n) ∧ gTag n ∈ tags) ∨
      (∃ j u, (hypTags tags).get? j = some u ∧ p = (last + cnt + j + 1, u) ∧
        u.head? ≠ some 's') := by
  induction tags with
  | nil => intro cnt p hp; rw [plantPairs_nil] at hp; cases hp
  | cons t ts ih =>
    intro cnt p hp
    have hwf' : ∀ u ∈ ts, (∃ n, u = gTag n) ∨ endsInI u = true :=
      fun u hu => hwf u (List.mem_cons_of_mem _ hu)
    rw [plantPairs_cons] at hp
    by_cases hi : endsInI t = true
    · rw [if_pos hi] at hp
      have hcons : hypTags (t :: ts) = t :: hypTags ts := by
        rw [hypTags_cons, if_pos hi]
      by_cases hs : t.head? = some 's'
      · rw [if_pos hs] at hp
        rcases ih hwf' (cnt + 1) p hp with ⟨n, hpn, hmem⟩ | ⟨j, u, hju, hpu, hsu⟩
        · exact Or.inl ⟨n, hpn, List.mem_cons_of_mem _ hmem⟩
        · refine Or.inr ⟨j + 1, u, ?_, ?_, hsu⟩
          · rw [hcons, List.get?_cons_succ]; exact hju
          · rw [hpu]; congr 1; omega
      · rw [if_neg hs] at hp
        rcases List.mem_cons.mp hp with hph | hp'
        · refine Or.inr ⟨0, t, ?_, ?_, hs⟩
          · rw [hcons, List.get?_cons_zero]
          · rw [hph]; congr 1; omega
        · rcases ih hwf' (cnt + 1) p hp' with ⟨n, hpn, hmem⟩ | ⟨j, u, hju, hpu, hsu⟩
          · exact Or.inl ⟨n, hpn, List.mem_cons_of_mem _ hmem⟩
          · refine Or.inr ⟨j + 1, u, ?_, ?_, hsu⟩
            · rw [hcons, List.get?_cons_succ]; exact hju
            · rw [hpu]; congr 1; omega
    · have hcons : hypTags (t :: ts) = hypTags ts := by rw [hypTags_cons, if_neg hi]
      rw [if_neg hi] at hp
      obtain ⟨n, htn⟩ : ∃ n, t = gTag n := by
        rcases hwf t (List.mem_cons_self _ _) with h | h
        · exact h
        · exact absurd h hi
      subst htn
      rw [gTag_drop_one, pyInt_natToDecimal] at hp
      rcases List.mem_cons.mp hp with hph | hp'
      · exact Or.inl ⟨n, hph, List.mem_cons_self _ _⟩
      · rcases ih hwf' cnt p hp' with ⟨m, hpm, hmem⟩ | ⟨j, u, hju, hpu, hsu⟩
        · exact Or.inl ⟨m, hpm, List.mem_cons_of_mem _ hmem⟩
        · refine Or.inr ⟨j, u, ?_, hpu, hsu⟩
          rw [hcons]; exact hju

/-- Every binding of `storagePairs` is the `j`-th hypothetical
storage-prefixed tag under key `last + cnt + j + 1`. -/
theorem mem_storagePairs_char (last : Int) {tags : List Tag} :
    ∀ (cnt : Nat) (p : Int × Tag), p ∈ storagePairs last cnt tags →
      ∃ j u, (hypTags tags).get? j = some u ∧ p = (last + cnt + j + 1, u) ∧
        u.head? = some 's' := by
  induction tags with
  | nil => intro cnt p hp; rw [storagePairs_nil] at hp; cases hp
  | cons t ts ih =>
    intro cnt p hp
    rw [storagePairs_cons] at hp
    by_cases hi : endsInI t = true
    · rw [if_pos hi] at hp
      have hcons : hypTags (t :: ts) = t :: hypTags ts := by
        rw [hypTags_cons, if_pos hi]
      by_cases hs : t.head? = some 's'
      · rw [if_pos hs] at hp
        rcases List.mem_cons.mp hp with hph | hp'
        · refine ⟨0, t, ?_, ?_, hs⟩
          · rw [hcons, List.get?_cons_zero]
          · rw [hph]; congr 1; omega
        · obtain ⟨j, u, hju, hpu, hsu⟩ := ih (cnt + 1) p hp'
          refine ⟨j + 1, u, ?_, ?_, hsu⟩
          · rw [hcons, List.get?_cons_succ]; exact hju
          · rw [hpu]; congr 1; omega
      · rw [if_neg hs] at hp
        obtain ⟨j, u, hju, hpu, hsu⟩ := ih (cnt + 1) p hp
        refine ⟨j + 1, u, ?_, ?_, hsu⟩
        · rw [hcons, List.get?_cons_succ]; exact hju
        · rw [hpu]; congr 1; omega
    · have hcons : hypTags (t :: ts) = hypTags ts := by rw [hypTags_cons, if_neg hi]
      rw [if_neg hi] at hp
      obtain ⟨j, u, hju, hpu, hsu⟩ := ih cnt p hp
      refine ⟨j, u, ?_, hpu, hsu⟩
      rw [hcons]; exact hju

/-- On well-formed tags, `recover_plant_indices` (without a reference floor)
computes the dicts described by `plantPairs`/`storagePairs` with the last
existing id as base. -/
theorem recover_plant_indices_eq_of_wf (tags : List Tag) (L : Int)
    (hspec : specLastExisting tags = some (some L))
    (hwf2 : ∀ t ∈ tags, endsInI t = false → pyInt (t.drop 1) ≠ none)
    (hne : ∀ t ∈ tags, t ≠ []) :
    recover_plant_indices tags none =
      some (insertAll [] (plantPairs L 0 tags),
            insertAll [] (storagePairs L 0 tags)) := by
  unfold recover_plant_indices
  rw [lastOriginalIdRev_reverse_eq, hspec]
  exact recoverPass2_eq L tags hwf2 hne [] [] 0

/-- Pass 1 completes without binding the last-id variable exactly on
all-hypothetical tag lists. -/
theorem lastOriginalIdRev_all_i {l : List Tag}
    (h : ∀ t ∈ l, endsInI t = true) : lastOriginalIdRev l = some none := by
  induction l with
  | nil => rfl
  | cons t ts ih =>
    have hi : endsInI t = true := h t (List.mem_cons_self _ _)
    have hc : t.getLast? = some 'i' := by
      simpa [endsInI] using hi
    show (match t.getLast? with
          | none => none
          | some c =>
            if c = 'i' then lastOriginalIdRev ts
            else (pyInt (t.drop 1)).map some) = some none
    rw [hc]
    show (if 'i' = 'i' then lastOriginalIdRev ts else _) = some none
    rw [if_pos rfl]
    exact ih (fun u hu => h u (List.mem_cons_of_mem _ hu))

/-- A list containing a non-`i`-suffixed tag cannot make pass 1 fall through
with the last-id variable unbound. -/
theorem lastOriginalIdRev_ne_some_none {l : List Tag} {t : Tag}
    (ht : t ∈ l) (hti : endsInI t = false) :
    lastOriginalIdRev l ≠ some none := by
  induction l with
  | nil => cases ht
  | cons u us ih =>
    cases hcu : u.getLast? with
    | none =>
      show (match u.getLast? with
            | none => none
            | some c =>
              if c = 'i' then lastOriginalIdRev us
              else (pyInt (u.drop 1)).map some) ≠ some none
      rw [hcu]
      simp
    | some c =>
      show (match u.getLast? with
            | none => none
            | some c =>
              if c = 'i' then lastOriginalIdRev us
              else (pyInt (u.drop 1)).map some) ≠ some none
      rw [hcu]
      by_cases hci : c = 'i'
      · subst hci
        show (if 'i' = 'i' then lastOriginalIdRev us else _) ≠ some none
        rw [if_pos rfl]
        rcases List.mem_cons.mp ht with heq | hmem
        · subst heq
          simp [endsInI, hcu] at hti
        · exact ih hmem
      · show (if c = 'i' then lastOriginalIdRev us
              else (pyInt (u.drop 1)).map some) ≠ some none
        rw [if_neg hci]
        cases hpy : pyInt (u.drop 1) <;> simp

/-- Pass 2 raises whenever some tag does not end in `i` and `int()` rejects
its body. -/
theorem recoverPass2_none_of_bad (last : Int) {tags : List Tag} {t : Tag}
    (ht : t ∈ tags) (hti : endsInI t = false)
    (hp : pyInt (t.drop 1) = none) :
    ∀ pm sm cnt, recoverPass2 last tags pm sm cnt = none := by
  induction tags with
  | nil => cases ht
  | cons u ts ih =>
    intro pm sm cnt
    rcases List.mem_cons.mp ht with heq | hmem
    · subst heq
      cases hc : t.getLast? with
      | none =>
        show (match t.getLast? with
              | none => none
              | some c => _) = none
        rw [hc]
      | some c =>
        have hci : c ≠ 'i' := by
          intro h
          rw [h] at hc
          simp [endsInI, hc] at hti
        show (match t.getLast? with
              | none => none
              | some c =>
                if c = 'i' then
                  if t.head? = some 's' then
                    recoverPass2 last ts pm (dictInsert sm (last + cnt + 1) t) (cnt + 1)
                  else
                    recoverPass2 last ts (dictInsert pm (last + cnt + 1) t) sm (cnt + 1)
                else
                  match pyInt (t.drop 1) with
                  | none => none
                  | some id => recoverPass2 last ts (dictInsert pm id t) sm cnt) = none
        rw [hc]
        show (if c = 'i' then
                if t.head? = some 's' then
                  recoverPass2 last ts pm (dictInsert sm (last + cnt + 1) t) (cnt + 1)
                else
                  recoverPass2 last ts (dictInsert pm (last + cnt + 1) t) sm (cnt + 1)
              else
                match pyInt (t.drop 1) with
                | none => none
                | some id => recoverPass2 last ts (dictInsert pm id t) sm cnt) = none
        rw [if_neg hci, hp]
    · cases hcu : u.getLast? with
      | none =>
        show (match u.getLast? with
              | none => none
              | some c => _) = none
        rw [hcu]
      | some c =>
        show (match u.getLast? with
              | none => none
              | some c =>
                if c = 'i' then
                  if u.head? = some 's' then
                    recoverPass2 last ts pm (dictInsert sm (last + cnt + 1) u) (cnt + 1)
                  else
                    recoverPass2 last ts (dictInsert pm (last + cnt + 1) u) sm (cnt + 1)
                else
                  match pyInt (u.drop 1) with
                  | none => none
                  | some id => recoverPass2 last ts (dictInsert pm id u) sm cnt) = none
        rw [hcu]
        by_cases hci : c = 'i'
        · subst hci
          show (if 'i' = 'i' then _ else _) = none
          rw [if_pos rfl]
          by_cases hs : u.head? = some 's'
          · rw [if_pos hs]; exact ih hmem _ _ _
          · rw [if_neg hs]; exact ih hmem _ _ _
        · show (if c = 'i' then _ else _) = none
          rw [if_neg hci]
          cases hpu : pyInt (u.drop 1) with
          | none => rfl
          | some id =>
            show recoverPass2 last ts (dictInsert pm id u) sm cnt = none
            exact ih hmem _ _ _

theorem getLast?_map_gTag (ids : List Nat) :
    (ids.map gTag).getLast? = ids.getLast?.map gTag := by
  induction ids with
  | nil => rfl
  | cons i is ih =>
    cases is with
    | nil => rfl
    | cons j js =>
      rw [List.map_cons, List.map_cons, List.getLast?_cons_cons,
        List.getLast?_cons_cons, ← List.map_cons]
      exact ih

theorem plantPairs_map_gTag (last : Int) (ids : List Nat) :
    ∀ cnt, plantPairs last cnt (ids.map gTag) =
      ids.map (fun (i : Nat) => ((i : Int), gTag i)) := by
  induction ids with
  | nil => intro cnt; rfl
  | cons i is ih =>
    intro cnt
    rw [List.map_cons, plantPairs_cons,
      if_neg (by simp [endsInI_gTag i]), gTag_drop_one, pyInt_natToDecimal,
      List.map_cons]
    exact congrArg _ (ih cnt)

theorem storagePairs_map_gTag (last : Int) (ids : List Nat) :
    ∀ cnt, storagePairs last cnt (ids.map gTag) = [] := by
  induction ids with
  | nil => intro cnt; rfl
  | cons i is ih =>
    intro cnt
    rw [List.map_cons, storagePairs_cons, if_neg (by simp [endsInI_gTag i])]
    exact ih cnt

/-- C10 counterexample: the empty tag list contains no existing tag, yet with
no reference floor supplied `recover_plant_indices` does not fail at all —
both loops run zero times, the unbound `last_original_plant_id` is never
referenced, and helpers.py line 154 returns a pair of empty series.  The
claim's universal failure on no-existing-tag inputs is therefore false at
this input. -/
theorem recover_plant_indices_empty_no_ref_returns :
    recover_plant_indices [] none = some ([], []) ∧
    recover_plant_indices [] none ≠ none := by decide

/-- C10 (amended): on a tag list containing no existing (non-`i`-suffixed)
tag, `recover_plant_indices` raises whenever the list is nonempty (pass 2
references the unbound `last_original_plant_id` at its first tag), and on
the empty list whenever the reference floor is supplied (the `max` line
references the unbound variable); only the empty list without a floor
escapes, returning a pair of empty series.  So at least one existing tag is
an unstated precondition on every nonempty no-existing-tag input, floor or
not. -/
theorem recover_plant_indices_no_existing_tag_fails :
    (∀ (tags : List Tag) (ref : Option Int), tags ≠ [] →
        (∀ t ∈ tags, endsInI t = true) →
        recover_plant_indices tags ref = none) ∧
    (∀ r : Int, recover_plant_indices [] (some r) = none) ∧
    recover_plant_indices [] none = some ([], []) := by
  refine ⟨?_, fun r => rfl, rfl⟩
  intro tags ref hne h
  unfold recover_plant_indices
  rw [lastOriginalIdRev_all_i (fun t ht => h t (List.mem_reverse.mp ht))]
  cases ref with
  | none =>
    cases tags with
    | nil => exact absurd rfl hne
    | cons t ts => rfl
  | some r => rfl

/-- Witness for the amended C10: the all-hypothetical list `[g1i, s2i]` fails
with the reference floor `100` supplied, and the empty list fails when the
floor is supplied. -/
theorem recover_plant_indices_no_existing_tag_fails_witness :
    recover_plant_indices [giTag 1, sTag 2] (some 100) = none ∧
    recover_plant_indices [] (some 100) = none :=
  ⟨recover_plant_indices_no_existing_tag_fails.1 [giTag 1, sTag 2] (some 100)
      (by decide) (by decide),
    recover_plant_indices_no_existing_tag_fails.2.1 100⟩

/-- C6 counterexample: on the tag list `[g1, z9i]`, whose second element
matches none of the `g{id}` / `g{id}i` / `s{bus}i` patterns,
`recover_plant_indices` does not fail at all: it returns successfully and
silently assigns the malformed tag `z9i` a synthesized id in the plant map.
The claim that decoding fails with a `FormatError` on any malformed tag is
therefore false (no such check exists in the code). -/
theorem recover_plant_indices_malformed_silently_assigned :
    recover_plant_indices [gTag 1, ['z', '9', 'i']] none =
      some ([(1, gTag 1), (2, ['z', '9', 'i'])], []) := by decide

/-- C6 (amended): no `FormatError` exists anywhere in the code.  A tag not
ending in `i` has `int()` applied to its body: when `int()` rejects the body
(for an ASCII tag: the body is not an optionally signed, optionally
whitespace-padded, optionally underscore-grouped decimal numeral, or the tag
is empty), `recover_plant_indices` raises an unhandled `ValueError` (or
`IndexError`); when `int()` accepts the body — including signed bodies such
as `g-5` — the tag is silently assigned under the parsed (possibly negative)
id.  A malformed tag ending in `i` is silently assigned a synthesized id,
into the storage map if it starts with `s` and into the plant map
otherwise. -/
theorem recover_plant_indices_malformed_behavior :
    (∀ (tags : List Tag) (ref : Option Int) (t : Tag), t ∈ tags →
        endsInI t = false → isAsciiTag t = true →
        pyInt (t.drop 1) = none →
        recover_plant_indices tags ref = none) ∧
    recover_plant_indices [gTag 2, ['q', '7', 'i']] none =
      some ([(2, gTag 2), (3, ['q', '7', 'i'])], []) ∧
    recover_plant_indices [['g', '-', '5']] none =
      some ([(-5, ['g', '-', '5'])], []) := by
  refine ⟨?_, by decide, by decide⟩
  intro tags ref t ht hti hascii hp
  unfold recover_plant_indices
  cases hl : lastOriginalIdRev tags.reverse with
  | none => rfl
  | some lo =>
    cases lo with
    | none =>
      exact absurd hl (lastOriginalIdRev_ne_some_none (List.mem_reverse.mpr ht) hti)
    | some l =>
      cases ref with
      | none => exact recoverPass2_none_of_bad l ht hti hp [] [] 0
      | some r => exact recoverPass2_none_of_bad (max l r) ht hti hp [] [] 0

/-- Witness for the amended C6: the malformed ASCII tag `x` (whose body is
empty, so `int()` rejects it) makes decoding raise. -/
theorem recover_plant_indices_malformed_behavior_witness :
    recover_plant_indices [['x']] none = none :=
  recover_plant_indices_malformed_behavior.1 [['x']] none ['x']
    (List.mem_cons_self _ _) (by decide) (by decide) (by decide)

/-- C2: for every list of numeric plant ids, encoding via
`make_plant_indices` (existing tags `g{id}`) and decoding the existing tags
via `recover_plant_indices` round-trips exactly: the plant series maps each
original id back to its tag `g{id}`, contains nothing else, and the storage
series is empty.  On the empty id list both decoder loops run zero times and
a pair of empty series is returned, so the round trip holds there as well. -/
theorem recover_make_plant_indices_roundtrip (ids : List Nat) :
    ∃ pm, recover_plant_indices (make_plant_indices ids none).1 none = some (pm, []) ∧
      (∀ i ∈ ids, dictLookup pm (i : Int) = some (gTag i)) ∧
      (∀ p ∈ pm, ∃ i ∈ ids, p.1 = (i : Int) ∧ p.2 = gTag i) := by
  by_cases hids : ids = []
  · subst hids
    refine ⟨[], rfl, ?_, ?_⟩
    · intro i hi; cases hi
    · intro p hp; cases hp
  · have htags : (make_plant_indices ids none).1 = ids.map gTag := rfl
    obtain ⟨m, hm⟩ : ∃ m, ids.getLast? = some m :=
      ⟨ids.getLast hids, List.getLast?_eq_getLast ids hids⟩
    have hspec : specLastExisting (ids.map gTag) = some (some (m : Int)) := by
      unfold specLastExisting
      have hfilter : (ids.map gTag).filter (fun t => !endsInI t) = ids.map gTag := by
        rw [List.filter_eq_self]
        intro t ht
        obtain ⟨i, _, rfl⟩ := List.mem_map.mp ht
        simp [endsInI_gTag i]
      rw [hfilter, getLast?_map_gTag, hm]
      show (pyInt ((gTag m).drop 1)).map some = some (some (m : Int))
      rw [gTag_drop_one, pyInt_natToDecimal]
      rfl
    have hwf2 : ∀ t ∈ ids.map gTag, endsInI t = false → pyInt (t.drop 1) ≠ none := by
      intro t ht _
      obtain ⟨i, _, rfl⟩ := List.mem_map.mp ht
      rw [gTag_drop_one, pyInt_natToDecimal]
      simp
    have hne : ∀ t ∈ ids.map gTag, t ≠ [] := by
      intro t ht
      obtain ⟨i, _, rfl⟩ := List.mem_map.mp ht
      simp [gTag]
    have heq := recover_plant_indices_eq_of_wf (ids.map gTag) (m : Int) hspec hwf2 hne
    rw [plantPairs_map_gTag, storagePairs_map_gTag] at heq
    refine ⟨insertAll [] (ids.map fun (i : Nat) => ((i : Int), gTag i)), ?_, ?_, ?_⟩
    · rw [htags, heq]; rfl
    · intro i hi
      apply lookup_insertAll_of_all_eq
      · left
        exact List.mem_map.mpr ⟨i, hi, rfl⟩
      · intro v' hv'
        obtain ⟨i', _, heq'⟩ := List.mem_map.mp hv'
        have h2 : (i' : Int) = (i : Int) := congrArg Prod.fst heq'
        have h3 : gTag i' = v' := congrArg Prod.snd heq'
        rw [← h3, Nat.cast_inj.mp h2]
    · intro p hp
      rcases mem_insertAll hp with hmem | hmem
      · cases hmem
      · obtain ⟨i', hi', heq'⟩ := List.mem_map.mp hmem
        exact ⟨i', hi', by rw [← heq'], by rw [← heq']⟩

/-- Witness for C2 at the concrete id list `[3, 1, 2]`. -/
theorem recover_make_plant_indices_roundtrip_witness :
    ∃ pm,
      recover_plant_indices (make_plant_indices [3, 1, 2] none).1 none = some (pm, []) ∧
      (∀ i ∈ ([3, 1, 2] : List Nat), dictLookup pm (i : Int) = some (gTag i)) ∧
      (∀ p ∈ pm, ∃ i ∈ ([3, 1, 2] : List Nat), p.1 = (i : Int) ∧ p.2 = gTag i) :=
  recover_make_plant_indices_roundtrip [3, 1, 2]

/-- C1 counterexample: for the tag list `[g5, g1, g1i]` the hypothetical tag
`g1i` receives synthesized id `2` — one past the id of the *last* existing tag
in input order (`g1`) — not `6 = max(existing ids) + 1` as the claim states:
the plant map holds no key `6` at all. -/
theorem recover_plant_indices_not_max_based :
    recover_plant_indices [gTag 5, gTag 1, giTag 1] none =
      some ([(5, gTag 5), (1, gTag 1), (2, giTag 1)], []) ∧
    dictLookup [(5, gTag 5), (1, gTag 1), (2, giTag 1)] 6 = none ∧
    dictLookup [(5, gTag 5), (1, gTag 1), (2, giTag 1)] 2 = some (giTag 1) := by
  decide

/-- C1 (amended): provided the last existing tag in input order carries the
maximal existing id `L` (as encoder output does), `recover_plant_indices`
maps each existing tag `g{id}` to its numeric id and assigns the `j`-th
(0-based) hypothetical tag (suffix `i`) in input order the synthesized id
`L + j + 1`, placing it in the storage map if it is prefixed `s` and in the
plant map otherwise.  Without that proviso the synthesized keys can collide
with existing ids and overwrite their entries in place: decoding
`[g2, g1, g1i]` yields plant map `{2: g1i, 1: g1}` — the entry `2 ↦ g2` is
overwritten by the synthesized `2 ↦ g1i`. -/
theorem recover_plant_indices_synthesized_ids_spec :
    (∀ (tags : List Tag) (L : Int),
      (∀ t ∈ tags, (∃ n, t = gTag n) ∨ (endsInI t = true ∧ t ≠ [])) →
      specLastExisting tags = some (some L) →
      (∀ n : Nat, gTag n ∈ tags → (n : Int) ≤ L) →
      ∃ pm sm,
        recover_plant_indices tags none = some (pm, sm) ∧
        (∀ n : Nat, gTag n ∈ tags → dictLookup pm (n : Int) = some (gTag n)) ∧
        (∀ (j : Nat) (u : Tag), (hypTags tags).get? j = some u →
          (u.head? = some 's' →
            dictLookup sm (L + j + 1) = some u ∧ dictLookup pm (L + j + 1) = none) ∧
          (u.head? ≠ some 's' →
            dictLookup pm (L + j + 1) = some u ∧ dictLookup sm (L + j + 1) = none))) ∧
    recover_plant_indices [gTag 2, gTag 1, giTag 1] none =
      some ([(2, giTag 1), (1, gTag 1)], []) := by
  constructor
  · intro tags L hwf hlast hmax
    have hwf1 : ∀ t ∈ tags, (∃ n, t = gTag n) ∨ endsInI t = true :=
      fun t ht => (hwf t ht).imp id And.left
    have hwf2 : ∀ t ∈ tags, endsInI t = false → pyInt (t.drop 1) ≠ none := by
      intro t ht hi
      rcases hwf t ht with ⟨n, rfl⟩ | ⟨h, _⟩
      · rw [gTag_drop_one, pyInt_natToDecimal]; simp
      · rw [h] at hi; cases hi
    have hne : ∀ t ∈ tags, t ≠ [] := by
      intro t ht
      rcases hwf t ht with ⟨n, rfl⟩ | ⟨_, h⟩
      · simp [gTag]
      · exact h
    refine ⟨insertAll [] (plantPairs L 0 tags), insertAll [] (storagePairs L 0 tags),
      recover_plant_indices_eq_of_wf tags L hlast hwf2 hne, ?_, ?_⟩
    · intro n hn
      apply lookup_insertAll_of_all_eq
      · left; exact mem_plantPairs_existing L hn 0
      · intro v' hv'
        rcases mem_plantPairs_char L hwf1 0 ((n : Int), v') hv' with
          ⟨m, hpm, _⟩ | ⟨j, u, _, hpu, _⟩
        · have h1 : (n : Int) = (m : Int) := congrArg Prod.fst hpm
          have h2 : v' = gTag m := congrArg Prod.snd hpm
          rw [h2, ← Nat.cast_inj.mp h1]
        · have h1 : (n : Int) = L + ((0 : Nat) : Int) + (j : Int) + 1 :=
            congrArg Prod.fst hpu
          have := hmax n hn
          omega
    · intro j u hju
      constructor
      · intro hs
        constructor
        · apply lookup_insertAll_of_all_eq
          · left
            have hmem := hyp_mem_storagePairs L 0 j u hju hs
            have hkey : L + ((0 : Nat) : Int) + (j : Int) + 1 = L + (j : Int) + 1 := by
              omega
            rw [hkey] at hmem
            exact hmem
          · intro v' hv'
            obtain ⟨j', u', hju', hpu', _⟩ :=
              mem_storagePairs_char L 0 (L + (j : Int) + 1, v') hv'
            have h1 : L + (j : Int) + 1 = L + ((0 : Nat) : Int) + (j' : Int) + 1 :=
              congrArg Prod.fst hpu'
            have h2 : v' = u' := congrArg Prod.snd hpu'
            have hj : j' = j := by omega
            rw [hj] at hju'
            rw [hju] at hju'
            injection hju' with h3
            rw [h2, h3]
        · refine lookup_insertAll_none rfl ?_
          intro v hv
          rcases mem_plantPairs_char L hwf1 0 (L + (j : Int) + 1, v) hv with
            ⟨m, hpm, hmemm⟩ | ⟨j', u', hju', hpu', hsu'⟩
          · have h1 : L + (j : Int) + 1 = (m : Int) := congrArg Prod.fst hpm
            have := hmax m hmemm
            omega
          · have h1 : L + (j : Int) + 1 = L + ((0 : Nat) : Int) + (j' : Int) + 1 :=
              congrArg Prod.fst hpu'
            have h2 : v = u' := congrArg Prod.snd hpu'
            have hj : j' = j := by omega
            rw [hj, hju] at hju'
            injection hju' with h3
            rw [← h3] at hsu'
            exact hsu' hs
      · intro hs
        constructor
        · apply lookup_insertAll_of_all_eq
          · left
            have hmem := hyp_mem_plantPairs L 0 j u hju hs
            have hkey : L + ((0 : Nat) : Int) + (j : Int) + 1 = L + (j : Int) + 1 := by
              omega
            rw [hkey] at hmem
            exact hmem
          · intro v' hv'
            rcases mem_plantPairs_char L hwf1 0 (L + (j : Int) + 1, v') hv' with
              ⟨m, hpm, hmemm⟩ | ⟨j', u', hju', hpu', _⟩
            · have h1 : L + (j : Int) + 1 = (m : Int) := congrArg Prod.fst hpm
              have := hmax m hmemm
              omega
            · have h1 : L + (j : Int) + 1 = L + ((0 : Nat) : Int) + (j' : Int) + 1 :=
                congrArg Prod.fst hpu'
              have h2 : v' = u' := congrArg Prod.snd hpu'
              have hj : j' = j := by omega
              rw [hj, hju] at hju'
              injection hju' with h3
              rw [h2, h3]
        · refine lookup_insertAll_none rfl ?_
          intro v hv
          obtain ⟨j', u', hju', hpu', hsu'⟩ :=
            mem_storagePairs_char L 0 (L + (j : Int) + 1, v) hv
          have h1 : L + (j : Int) + 1 = L + ((0 : Nat) : Int) + (j' : Int) + 1 :=
            congrArg Prod.fst hpu'
          have h2 : v = u' := congrArg Prod.snd hpu'
          have hj : j' = j := by omega
          rw [hj, hju] at hju'
          injection hju' with h3
          rw [← h3] at hsu'
          exact hs hsu'
  · decide

/-- Witness for the amended C1 at the tag list `[g1, g2, g1i, s2i]` (the
claim's own example, with `L = 2`): the decoded plant map is
`{1: g1, 2: g2, 3: g1i}` and the storage map is `{4: s2i}`. -/
theorem recover_plant_indices_synthesized_ids_spec_witness :
    (∃ pm sm,
      recover_plant_indices [gTag 1, gTag 2, giTag 1, sTag 2] none = some (pm, sm) ∧
      (∀ n : Nat, gTag n ∈ ([gTag 1, gTag 2, giTag 1, sTag 2] : List Tag) →
        dictLookup pm (n : Int) = some (gTag n)) ∧
      (∀ (j : Nat) (u : Tag),
        (hypTags [gTag 1, gTag 2, giTag 1, sTag 2]).get? j = some u →
        (u.head? = some 's' →
          dictLookup sm ((2 : Int) + j + 1) = some u ∧
            dictLookup pm ((2 : Int) + j + 1) = none) ∧
        (u.head? ≠ some 's' →
          dictLookup pm ((2 : Int) + j + 1) = some u ∧
            dictLookup sm ((2 : Int) + j + 1) = none))) ∧
    recover_plant_indices [gTag 1, gTag 2, giTag 1, sTag 2] none =
      some ([(1, gTag 1), (2, gTag 2), (3, giTag 1)], [(4, sTag 2)]) := by
  constructor
  · apply recover_plant_indices_synthesized_ids_spec.1
      [gTag 1, gTag 2, giTag 1, sTag 2] 2
    · intro t ht
      rcases List.mem_cons.mp ht with rfl | ht
      · exact Or.inl ⟨1, rfl⟩
      rcases List.mem_cons.mp ht with rfl | ht
      · exact Or.inl ⟨2, rfl⟩
      rcases List.mem_cons.mp ht with rfl | ht
      · exact Or.inr (by decide)
      rcases List.mem_cons.mp ht with rfl | ht
      · exact Or.inr (by decide)
      cases ht
    · decide
    · intro n hn
      rcases List.mem_cons.mp hn with h | hn
      · have := gTag_injective h; omega
      rcases List.mem_cons.mp hn with h | hn
      · have := gTag_injective h; omega
      rcases List.mem_cons.mp hn with h | hn
      · exact absurd (endsInI_gTag n) (by rw [h]; decide)
      rcases List.mem_cons.mp hn with h | hn
      · exact absurd (endsInI_gTag n) (by rw [h]; decide)
      cases hn
  · decide

/-- One row of the `timepoints` table (indexed by `timepoint_id`, with columns
`timestamp`, `timeseries`, `ts_period`, `ts_duration_of_tp`). -/
structure TimepointRow where
  tp_id : Nat
  timestamp : Nat
  timeseries : Nat
  ts_period : Int
  ts_duration_of_tp : ℚ
deriving DecidableEq

/-- The grouping key used by `_check_timepoints`, as nested pairs:
`(timeseries, (ts_period, ts_duration_of_tp))`. -/
def tsGroupKey (r : TimepointRow) : Nat × Int × ℚ :=
  (r.timeseries, r.ts_period, r.ts_duration_of_tp)

/-- The error message raised by `_check_timepoints`. -/
def timeseriesCheckMsg : List Char :=
  ("Each timeseries entry must have exactly one corresponding entry within the"
    ++ " ts_period and ts_duration_of_tp columns.").data

/-- Embedding of `_check_timepoints` (profiles_to_switch.py lines 54-72):
compare the number of unique `timeseries` values against the number of
distinct `(timeseries, ts_period, ts_duration_of_tp)` groups, and raise
`ValueError` with an explicit message when they differ. -/
def _check_timepoints (timepoints : List TimepointRow) : Except (List Char) Unit :=
  let num_timeseries := ((timepoints.map (·.timeseries)).dedup).length
  let num_timeseries_groups := ((timepoints.map tsGroupKey).dedup).length
  if num_timeseries ≠ num_timeseries_groups then Except.error timeseriesCheckMsg
  else Except.ok ()

/-- Embedding of `prepare_inputs` (prepare.py lines 11-52) at the validation
layer: `_check_timepoints` is its first statement, before any output table is
built or saved; the building and saving of the output tables (grid_to_switch,
profiles_to_switch, the pickled and CSV inputs) is abstracted as the value
`built_outputs` returned only on the success path. -/
def prepare_inputs (timepoints : List TimepointRow)
    (built_outputs : List (List Char)) : Except (List Char) (List (List Char)) :=
  match _check_timepoints timepoints with
  | Except.error e => Except.error e
  | Except.ok _ => Except.ok built_outputs

theorem toFinset_map_eq_image {α β : Type} [DecidableEq α] [DecidableEq β]
    (f : α → β) (l : List α) : (l.map f).toFinset = l.toFinset.image f := by
  ext b
  simp [List.mem_toFinset, List.mem_map, Finset.mem_image]

/-- C7: `_check_timepoints` raises a `ValueError` with an explicit message if
and only if some `timeseries` value maps to more than one distinct
`(ts_period, ts_duration_of_tp)` pair; and on such data `prepare_inputs`
stops with that error before any output table is produced. -/
theorem check_timepoints_iff_and_first (timepoints : List TimepointRow) :
    ((_check_timepoints timepoints = Except.error timeseriesCheckMsg) ↔
      ∃ r ∈ timepoints, ∃ r' ∈ timepoints, r.timeseries = r'.timeseries ∧
        (r.ts_period, r.ts_duration_of_tp) ≠ (r'.ts_period, r'.ts_duration_of_tp)) ∧
    (∀ outs, _check_timepoints timepoints = Except.error timeseriesCheckMsg →
      prepare_inputs timepoints outs = Except.error timeseriesCheckMsg) := by
  constructor
  · have hmap : timepoints.map (·.timeseries) =
        (timepoints.map tsGroupKey).map Prod.fst := by
      rw [List.map_map]; rfl
    have hcard1 : ((timepoints.map (·.timeseries)).dedup).length =
        ((timepoints.map tsGroupKey).toFinset.image Prod.fst).card := by
      rw [← List.card_toFinset, hmap, toFinset_map_eq_image]
    have hcard2 : ((timepoints.map tsGroupKey).dedup).length =
        (timepoints.map tsGroupKey).toFinset.card := (List.card_toFinset _).symm
    constructor
    · intro herr
      have hne : ((timepoints.map (·.timeseries)).dedup).length ≠
          ((timepoints.map tsGroupKey).dedup).length := by
        intro heq
        unfold _check_timepoints at herr
        rw [if_neg (by exact fun h => h heq)] at herr
        cases herr
      rw [hcard1, hcard2] at hne
      have hninj : ¬ Set.InjOn Prod.fst ((timepoints.map tsGroupKey).toFinset : Set (Nat × Int × ℚ)) := by
        intro hinj
        exact hne (Finset.card_image_iff.mpr hinj)
      rw [Set.InjOn] at hninj
      push_neg at hninj
      obtain ⟨a, ha, b, hb, hab, hne2⟩ := hninj
      have ha' := List.mem_toFinset.mp ha
      have hb' := List.mem_toFinset.mp hb
      obtain ⟨r, hr, hra⟩ := List.mem_map.mp ha'
      obtain ⟨r', hr', hrb⟩ := List.mem_map.mp hb'
      refine ⟨r, hr, r', hr', ?_, ?_⟩
      · have : a.1 = b.1 := hab
        rw [← hra, ← hrb] at this
        exact this
      · intro hpair
        apply hne2
        rw [← hra, ← hrb]
        unfold tsGroupKey
        have h1 : r.timeseries = r'.timeseries := by
          have : a.1 = b.1 := hab
          rw [← hra, ← hrb] at this
          exact this
        rw [h1]
        have h2 := congrArg Prod.fst hpair
        have h3 := congrArg Prod.snd hpair
        simp only at h2 h3
        rw [h2, h3]
    · intro ⟨r, hr, r', hr', hts, hpair⟩
      have hne : ((timepoints.map (·.timeseries)).dedup).length ≠
          ((timepoints.map tsGroupKey).dedup).length := by
        rw [hcard1, hcard2]
        intro heq
        have hinj := Finset.card_image_iff.mp heq
        have ha : tsGroupKey r ∈ (timepoints.map tsGroupKey).toFinset :=
          List.mem_toFinset.mpr (List.mem_map.mpr ⟨r, hr, rfl⟩)
        have hb : tsGroupKey r' ∈ (timepoints.map tsGroupKey).toFinset :=
          List.mem_toFinset.mpr (List.mem_map.mpr ⟨r', hr', rfl⟩)
        have := hinj ha hb (by unfold tsGroupKey; exact hts)
        apply hpair
        unfold tsGroupKey at this
        have h2 := congrArg Prod.snd this
        exact h2
      unfold _check_timepoints
      rw [if_pos hne]
  · intro outs herr
    unfold prepare_inputs
    rw [herr]

/-- Witness for C7 at a table where timeseries `7` maps to two distinct
periods: the check raises, and `prepare_inputs` propagates the error without
producing any outputs. -/
theorem check_timepoints_iff_and_first_witness :
    _check_timepoints
      [⟨1, 10, 7, 2030, 1⟩, ⟨2, 11, 7, 2040, 1⟩] = Except.error timeseriesCheckMsg ∧
    prepare_inputs [⟨1, 10, 7, 2030, 1⟩, ⟨2, 11, 7, 2040, 1⟩] [['l']] =
      Except.error timeseriesCheckMsg :=
  ⟨(check_timepoints_iff_and_first _).1.mpr
      ⟨⟨1, 10, 7, 2030, 1⟩, by decide, ⟨2, 11, 7, 2040, 1⟩, by decide, rfl, by decide⟩,
    (check_timepoints_iff_and_first _).2 [['l']]
      ((check_timepoints_iff_and_first _).1.mpr
        ⟨⟨1, 10, 7, 2030, 1⟩, by decide, ⟨2, 11, 7, 2040, 1⟩, by decide, rfl, by decide⟩)⟩

/-- Symbolic model of a pandas float cell: an exact rational, or one of the
special values produced by degenerate arithmetic. -/
inductive PFloat
  | fin (q : ℚ)
  | nan
  | inf
  | ninf
deriving DecidableEq

/-- Pandas float division of two finite values: `0/0` is NaN, `±x/0` is
`±inf`, otherwise exact. -/
def pdivQ (a b : ℚ) : PFloat :=
  if b = 0 then
    if a = 0 then PFloat.nan else if 0 < a then PFloat.inf else PFloat.ninf
  else PFloat.fin (a / b)

/-- `Series.fillna(0)`: replaces NaN by 0 and keeps everything else,
including infinities. -/
def fillna0 : PFloat → PFloat
  | PFloat.nan => PFloat.fin 0
  | x => x

/-- Embedding of `const.assumed_pmins` (const.py lines 83-88) together with
the two-step lookup `assumed_pmins.get(type, assumed_pmins["default"])`:
`coal` maps to `None` (keep native Pmin), `geothermal`/`nuclear` to `0.95`,
every other type to the `default` of `0`. -/
def assumed_pmins (t : List Char) : Option ℚ :=
  if t = "coal".data then none
  else if t = "geothermal".data then some (19 / 20)
  else if t = "nuclear".data then some (19 / 20)
  else some 0

/-- One joined row of `grid.plant` and `grid.gencost["before"]` (they share
the plant-id index), with the fields used by `linearize_gencost`. -/
structure PlantCostRow where
  ptype : List Char
  Pmin : ℚ
  Pmax : ℚ
  c0 : ℚ
  c1 : ℚ
  c2 : ℚ
deriving DecidableEq

/-- The effective Pmin used by `linearize_gencost` (grid_to_switch.py lines
172-178): `Pmax * fraction` when an assumed-minimum fraction exists for the
plant's type, else the native Pmin. -/
def effPmin (r : PlantCostRow) : ℚ :=
  match assumed_pmins r.ptype with
  | some f => r.Pmax * f
  | none => r.Pmin

/-- Embedding of `linearize_gencost` (grid_to_switch.py lines 163-190): per
plant, the cost at effective minimum power and the single-segment slope
`(cost(Pmax) - cost(Pmin)) / (Pmax - Pmin)` with a final `fillna(0)`. -/
def linearize_gencost (rows : List PlantCostRow) : List (ℚ × PFloat) :=
  rows.map (fun r =>
    let pmin := effPmin r
    let cost_at_min_power := r.c0 + r.c1 * pmin + r.c2 * pmin ^ 2
    let cost_at_max_power := r.c0 + r.c1 * r.Pmax + r.c2 * r.Pmax ^ 2
    (cost_at_min_power,
      fillna0 (pdivQ (cost_at_max_power - cost_at_min_power) (r.Pmax - pmin))))

/-- C8: the slope series returned by `linearize_gencost` never contains NaN or
inf (every entry is a finite rational), and a plant whose effective Pmin
equals its Pmax gets a slope of exactly 0 (the 0/0 NaN is filled with 0; a
nonzero numerator over a zero denominator cannot occur since equal power
bounds give equal quadratic costs). -/
theorem linearize_gencost_degenerate_slope (rows : List PlantCostRow) :
    (∀ p ∈ linearize_gencost rows, ∃ q, p.2 = PFloat.fin q) ∧
    (∀ r ∈ rows, effPmin r = r.Pmax →
      (r.c0 + r.c1 * effPmin r + r.c2 * effPmin r ^ 2, PFloat.fin 0) ∈
        linearize_gencost rows) := by
  constructor
  · intro p hp
    obtain ⟨r, _, hrp⟩ := List.mem_map.mp hp
    by_cases hden : r.Pmax - effPmin r = 0
    · have hpm : effPmin r = r.Pmax := by linarith
      have hnum : (r.c0 + r.c1 * r.Pmax + r.c2 * r.Pmax ^ 2) -
          (r.c0 + r.c1 * effPmin r + r.c2 * effPmin r ^ 2) = 0 := by
        rw [hpm]; ring
      refine ⟨0, ?_⟩
      rw [← hrp]
      show fillna0 (pdivQ _ _) = PFloat.fin 0
      rw [hnum, hden]
      rfl
    · refine ⟨((r.c0 + r.c1 * r.Pmax + r.c2 * r.Pmax ^ 2) -
          (r.c0 + r.c1 * effPmin r + r.c2 * effPmin r ^ 2)) / (r.Pmax - effPmin r), ?_⟩
      rw [← hrp]
      show fillna0 (pdivQ _ _) = PFloat.fin _
      unfold pdivQ
      rw [if_neg hden]
      rfl
  · intro r hr hpm
    have hden : r.Pmax - effPmin r = 0 := by rw [hpm]; ring
    have hnum : (r.c0 + r.c1 * r.Pmax + r.c2 * r.Pmax ^ 2) -
        (r.c0 + r.c1 * effPmin r + r.c2 * effPmin r ^ 2) = 0 := by
      rw [hpm]; ring
    refine List.mem_map.mpr ⟨r, hr, ?_⟩
    show (_, fillna0 (pdivQ _ _)) = _
    rw [hnum, hden]
    rfl

/-- Witness for C8 at a single coal plant with `Pmin = Pmax = 5` (coal keeps
its native Pmin): the slope is exactly 0 and the series holds no NaN/inf. -/
theorem linearize_gencost_degenerate_slope_witness :
    (∀ p ∈ linearize_gencost [⟨"coal".data, 5, 5, 1, 2, 3⟩], ∃ q, p.2 = PFloat.fin q) ∧
    ((86 : ℚ), PFloat.fin 0) ∈ linearize_gencost [⟨"coal".data, 5, 5, 1, 2, 3⟩] := by
  constructor
  · exact (linearize_gencost_degenerate_slope _).1
  · have h := (linearize_gencost_degenerate_slope [⟨"coal".data, 5, 5, 1, 2, 3⟩]).2
      ⟨"coal".data, 5, 5, 1, 2, 3⟩ (List.mem_cons_self _ _) rfl
    have h86 : (⟨"coal".data, 5, 5, 1, 2, 3⟩ : PlantCostRow).c0 +
        (⟨"coal".data, 5, 5, 1, 2, 3⟩ : PlantCostRow).c1 *
          effPmin ⟨"coal".data, 5, 5, 1, 2, 3⟩ +
        (⟨"coal".data, 5, 5, 1, 2, 3⟩ : PlantCostRow).c2 *
          effPmin ⟨"coal".data, 5, 5, 1, 2, 3⟩ ^ 2 = 86 := by
      show (1 : ℚ) + 2 * 5 + 3 * 5 ^ 2 = 86
      norm_num
    rw [h86] at h
    exact h

/-- `const.financial_parameters["interest_rate"]` (const.py line 22). -/
def interest_rate : ℚ := 29 / 1000

/-- Round-half-to-even on a rational, the tie rule of numpy/pandas
`Series.round`. -/
def roundHalfEven (x : ℚ) : ℤ :=
  let f := ⌊x⌋
  if x - f < 1 / 2 then f
  else if 1 / 2 < x - f then f + 1
  else if Even f then f else f + 1

/-- `Series.round(2)`: round to two decimal places, ties to even. -/
def round2 (x : ℚ) : ℚ := (roundHalfEven (x * 100) : ℚ) / 100

/-- One row of the average-fuel-cost table produced by
`calculate_average_fuel_cost`: the mean `GenFuelCost` for a `(bus_id, fuel)`
group. -/
structure FuelCostRow where
  bus_id : Nat
  fuel : List Char
  cost : ℚ
deriving DecidableEq

/-- Embedding of `build_fuel_cost` (grid_to_switch.py lines 215-245): each
average-cost row is repeated once per investment year (row-major: all years
for the first row, then all years for the second, matching the
`index.repeat`/list-multiplication pairing), the cost is inflated by
`(1 + interest_rate) ^ (year - base_year)` and rounded to 2 decimals, and
rows with non-positive cost are dropped by `query("fuel_cost > 0")`. -/
def build_fuel_cost (average_fuel_cost : List FuelCostRow) (base_year : Int)
    (inv_period : List Int) : List (Nat × List Char × Int × ℚ) :=
  (average_fuel_cost.flatMap (fun a =>
    inv_period.map (fun y =>
      (a.bus_id, a.fuel, y, round2 (a.cost * (1 + interest_rate) ^ (y - base_year)))))).filter
    (fun row => 0 < row.2.2.2)

/-- C9: a row `(bus, fuel, year, c)` appears in the output of
`build_fuel_cost` exactly when the input table holds an average cost `a` for
`(bus, fuel)`, `year` is an investment year, and
`c = round2(a * (1 + interest_rate)^(year - base_year))` is positive —
in particular every combination of input row and investment year is emitted
with that cost, and every non-positive row is dropped. -/
theorem build_fuel_cost_rows (average_fuel_cost : List FuelCostRow)
    (base_year : Int) (inv_period : List Int)
    (b : Nat) (fu : List Char) (y : Int) (c : ℚ) :
    (b, fu, y, c) ∈ build_fuel_cost average_fuel_cost base_year inv_period ↔
      ∃ a ∈ average_fuel_cost, a.bus_id = b ∧ a.fuel = fu ∧ y ∈ inv_period ∧
        c = round2 (a.cost * (1 + interest_rate) ^ (y - base_year)) ∧ 0 < c := by
  unfold build_fuel_cost
  rw [List.mem_filter]
  constructor
  · intro ⟨hmem, hpos⟩
    obtain ⟨a, ha, hrow⟩ := List.mem_flatMap.mp hmem
    obtain ⟨yy, hy, heq⟩ := List.mem_map.mp hrow
    injection heq with h1 hrest
    injection hrest with h2 hrest
    injection hrest with h3 h4
    refine ⟨a, ha, h1, h2, ?_, ?_, ?_⟩
    · rw [← h3]; exact hy
    · rw [← h4, h3]
    · simpa using hpos
  · intro ⟨a, ha, h1, h2, hy, hc, hpos⟩
    constructor
    · refine List.mem_flatMap.mpr ⟨a, ha, List.mem_map.mpr ⟨y, hy, ?_⟩⟩
      rw [h1, h2, ← hc]
    · simpa using hpos

/-- Strip a literal prefix from a character list, or fail. -/
def dropLiteral : List Char → List Char → Option (List Char)
  | [], s => some s
  | _, [] => none
  | k :: ks, c :: cs => if k = c then dropLiteral ks cs else none

/-- The backtracking split performed by `\[(?P<params>.*),(?P<timepoint>.*?)\]`
after the opening bracket: the greedy `(.*)` puts the split at the last comma
that still has a `]` somewhere after it; returns `(params, rest-after-comma)`. -/
def splitParamsTp : List Char → Option (List Char × List Char)
  | [] => none
  | c :: cs =>
      match splitParamsTp cs with
      | some (ps, rest) => some (c :: ps, rest)
      | none => if c = ',' && cs.contains ']' then some ([], cs) else none

/-- Embedding of `re.match` for the `parse_timepoints` pattern
`key + r"\[(?P<params>.*),(?P<timepoint>.*?)\]"` (helpers.py line 100):
`re.match` anchors at the start only, `(.*)` is greedy, `(.*?)` is lazy, so a
string matches iff it starts with `key` followed by `[`, and the remainder
holds a comma with a `]` after it; `params` runs to the last such comma and
`timepoint` to the first `]` after it.  Returns `(params, timepoint)`. -/
def pymatch (key s : List Char) : Option (List Char × List Char) :=
  match dropLiteral key s with
  | none => none
  | some ('[' :: rest) =>
      match splitParamsTp rest with
      | none => none
      | some (ps, after) => some (ps, after.takeWhile (fun c => c ≠ ']'))
  | some _ => none

/-- The full text consumed by the match (`m.group(0)`), used as the dict key
for the value lookup `variables[m.group(0)]`. -/
def group0 (key ps tp : List Char) : List Char :=
  key ++ '[' :: (ps ++ ',' :: (tp ++ [']']))

/-- First-match lookup in the solution dictionary (keys are unique). -/
def strLookup : List (List Char × ℚ) → List Char → Option ℚ
  | [], _ => none
  | (k, v) :: r, s => if k = s then some v else strLookup r s

/-- Worker for `match_variables`: walk the dictionary entries in order,
looking each match's `m.group(0)` up in the *full* dictionary. -/
def matchRowsPt (full : List (List Char × ℚ)) (key : List Char) :
    List (List Char × ℚ) → Option (List (List Char × List Char × ℚ))
  | [] => some []
  | (k, _) :: rest =>
      match pymatch key k with
      | none => matchRowsPt full key rest
      | some (ps, tp) =>
          match strLookup full (group0 key ps tp) with
          | none => none
          | some v =>
              match matchRowsPt full key rest with
              | none => none
              | some ms => some ((ps, tp, v) :: ms)

/-- Embedding of `match_variables` (helpers.py lines 6-28) instantiated at the
`parse_timepoints` pattern family: one `(params, timepoint, value)` row per
dictionary key matching the pattern, the value looked up under `m.group(0)`
(`none` models the `KeyError` raised when a key matches only up to a proper
prefix of itself). -/
def match_variables_pt (var_dict : List (List Char × ℚ)) (key : List Char) :
    Option (List (List Char × List Char × ℚ)) :=
  matchRowsPt var_dict key var_dict

/-- Cast the `timepoint` capture of each row to an integer
(`df.index.astype(int)`, helpers.py line 113); `none` models the raised
`ValueError` on a non-numeric capture. -/
def castTimepoints (ms : List (List Char × List Char × ℚ)) :
    Option (List (List Char × Nat × ℚ)) :=
  ms.mapM (fun m => (parseNat m.2.1).map (fun n => (m.1, n, m.2.2)))

/-- The timestamp-indexed frame produced for one variable: for each
`(timestamp, timepoint)` mapping row, the `(params, value)` columns of that
timepoint (`unstack` then `.loc[timestamps_to_timepoints["timepoint"]]`,
helpers.py lines 110-117).  `none` models the pandas errors on duplicate
`(timepoint, params)` index pairs (unstack) or on a mapped timepoint that is
absent from the variable's rows (`.loc` KeyError). -/
def parseOneVariable (ms : List (List Char × List Char × ℚ))
    (t2tp : List (Nat × Nat)) : Option (List (Nat × List (List Char × ℚ))) :=
  match castTimepoints ms with
  | none => none
  | some ms' =>
      if (ms'.map (fun m => (m.2.1, m.1))).Nodup then
        if ∀ p ∈ t2tp, ∃ m ∈ ms', m.2.1 = p.2 then
          some (t2tp.map (fun p =>
            (p.1, ms'.filterMap (fun m =>
              if m.2.1 = p.2 then some (m.1, m.2.2) else none))))
        else none
      else none

/-- Embedding of `parse_timepoints` (helpers.py lines 70-121): process each
requested variable in order; a variable with no matching dictionary entries
gets the value `none` (Python `None`); otherwise its timestamp-expanded frame.
The requested variable names are assumed distinct (as at every call site), so
the association list in processing order is the produced dict. -/
def parse_timepoints (var_dict : List (List Char × ℚ))
    (varNames : List (List Char)) (t2tp : List (Nat × Nat)) :
    Option (List (List Char × Option (List (Nat × List (List Char × ℚ))))) :=
  match varNames with
  | [] => some []
  | key :: rest =>
      match match_variables_pt var_dict key with
      | none => none
      | some ms =>
          if ms.isEmpty then
            match parse_timepoints var_dict rest t2tp with
            | none => none
            | some r => some ((key, none) :: r)
          else
            match parseOneVariable ms t2tp with
            | none => none
            | some df =>
                match parse_timepoints var_dict rest t2tp with
                | none => none
                | some r => some ((key, some df) :: r)

/-- Is the character a lowercase letter or digit (the `[a-z0-9]` class)? -/
def isLowerAlnum (c : Char) : Bool := (('a' ≤ c) && (c ≤ 'z')) || isDigitChar c

/-- Embedding of `re.match` for the `extract_build_decisions` patterns
`Name\[(?P<id>[a-z0-9]+),(?P<year>[0-9]+)\]` (switch_to_grid.py lines
176-178): deterministic because the capture classes exclude `,` and `]`.
Returns `(id, year)` captures; trailing text after `]` is allowed
(`re.match` does not anchor the end). -/
def matchBuild (name s : List Char) : Option (List Char × List Char) :=
  match dropLiteral name s with
  | none => none
  | some ('[' :: rest) =>
      let id := rest.takeWhile isLowerAlnum
      let r1 := rest.drop id.length
      if id = [] then none
      else
        match r1 with
        | ',' :: r2 =>
            let yr := r2.takeWhile isDigitChar
            let r3 := r2.drop yr.length
            if yr = [] then none
            else
              match r3 with
              | ']' :: _ => some (id, yr)
              | _ => none
        | _ => none
  | some _ => none

/-- `m.group(0)` for a build-pattern match. -/
def group0Build (name id yr : List Char) : List Char :=
  name ++ '[' :: (id ++ ',' :: (yr ++ [']']))

/-- Worker for `match_variables` at the build patterns; row order follows the
dictionary, values are looked up under `m.group(0)` in the full dictionary.
Rows are `(year, id, value)` — the `columns` argument is
`["year", "gen_id"]`-style, so `year` is the first column. -/
def matchRowsBuild (full : List (List Char × ℚ)) (name : List Char) :
    List (List Char × ℚ) → Option (List (List Char × List Char × ℚ))
  | [] => some []
  | (k, _) :: rest =>
      match matchBuild name k with
      | none => matchRowsBuild full name rest
      | some (id, yr) =>
          match strLookup full (group0Build name id yr) with
          | none => none
          | some v =>
              match matchRowsBuild full name rest with
              | none => none
              | some ms => some ((yr, id, v) :: ms)

/-- `match_variables` instantiated at a build pattern. -/
def match_variables_build (var_dict : List (List Char × ℚ)) (name : List Char) :
    Option (List (List Char × List Char × ℚ)) :=
  matchRowsBuild var_dict name var_dict

/-- A pandas cell: string, integer, or float. -/
inductive PyCell
  | s (v : List Char)
  | z (v : Int)
  | q (v : ℚ)
deriving DecidableEq

/-- A pandas data frame: column names and rows of cells. -/
structure PyDF where
  cols : List (List Char)
  rows : List (List PyCell)
deriving DecidableEq

/-- The frame built by `pd.DataFrame` from the matched rows: empty matches
give the column-less `(0, 0)`-shaped frame, otherwise columns
`[year, idcol, capacity]` in dict-key order. -/
def mkBuildDF (ms : List (List Char × List Char × ℚ)) (idcol : List Char) : PyDF :=
  if ms.isEmpty then ⟨[], []⟩
  else ⟨["year".data, idcol, "capacity".data],
        ms.map (fun m => [PyCell.s m.1, PyCell.s m.2.1, PyCell.q m.2.2])⟩

/-- `df.astype({"year": int})`: fails (`none`, a raised `KeyError`) when the
frame has no `year` column; otherwise parses the `year` cells to integers. -/
def astypeYearInt (df : PyDF) : Option PyDF :=
  if "year".data ∈ df.cols then
    let idx := df.cols.indexOf "year".data
    match df.rows.mapM (fun row =>
        match row.get? idx with
        | some (PyCell.s v) => (parseNat v).map (fun n => row.set idx (PyCell.z n))
        | some (PyCell.z n) => some (row.set idx (PyCell.z n))
        | _ => none) with
    | none => none
    | some rows' => some ⟨df.cols, rows'⟩
  else none

/-- Embedding of `extract_build_decisions` (switch_to_grid.py lines 161-191):
extract the `BuildGen`, `BuildTx` and `BuildStorageEnergy` variables into
three frames; only the storage frame is guarded against the `(0, 0)` shape of
an empty match (replaced by an explicitly empty frame with columns
`['year', 's_id', 'capacity']`) before the `astype` cast. -/
def extract_build_decisions (var_dict : List (List Char × ℚ)) :
    Option (PyDF × PyDF × PyDF) :=
  match match_variables_build var_dict "BuildGen".data with
  | none => none
  | some msg =>
      match astypeYearInt (mkBuildDF msg "gen_id".data) with
      | none => none
      | some build_gen =>
          match match_variables_build var_dict "BuildTx".data with
          | none => none
          | some mst =>
              match astypeYearInt (mkBuildDF mst "tx_id".data) with
              | none => none
              | some build_tx =>
                  match match_variables_build var_dict "BuildStorageEnergy".data with
                  | none => none
                  | some mss =>
                      let sdf := mkBuildDF mss "s_id".data
                      let sdf := if sdf.cols = [] ∧ sdf.rows = [] then
                          (⟨["year".data, "s_id".data, "capacity".data], []⟩ : PyDF)
                        else sdf
                      match astypeYearInt sdf with
                      | none => none
                      | some build_storage_energy =>
                          some (build_gen, build_tx, build_storage_energy)

theorem matchRowsPt_empty (full : List (List Char × ℚ)) (key : List Char)
    {l : List (List Char × ℚ)} (h : ∀ kv ∈ l, pymatch key kv.1 = none) :
    matchRowsPt full key l = some [] := by
  induction l with
  | nil => rfl
  | cons kv rest ih =>
    obtain ⟨k, v⟩ := kv
    show (match pymatch key k with
          | none => matchRowsPt full key rest
          | some (ps, tp) => _) = some []
    rw [h (k, v) (List.mem_cons_self _ _)]
    exact ih (fun kv hkv => h kv (List.mem_cons_of_mem _ hkv))

theorem matchRowsBuild_empty (full : List (List Char × ℚ)) (name : List Char)
    {l : List (List Char × ℚ)} (h : ∀ kv ∈ l, matchBuild name kv.1 = none) :
    matchRowsBuild full name l = some [] := by
  induction l with
  | nil => rfl
  | cons kv rest ih =>
    obtain ⟨k, v⟩ := kv
    show (match matchBuild name k with
          | none => matchRowsBuild full name rest
          | some (id, yr) => _) = some []
    rw [h (k, v) (List.mem_cons_self _ _)]
    exact ih (fun kv hkv => h kv (List.mem_cons_of_mem _ hkv))

/-- The explicitly empty storage-decision frame produced when no
`BuildStorageEnergy` entries exist. -/
def emptyStorageDF : PyDF :=
  ⟨["year".data, "s_id".data, "capacity".data], []⟩

/-- C5 counterexample: on the empty solution dictionary — where every
variable family, in particular `BuildGen`, has no matching entries —
`extract_build_decisions` does not return an explicitly empty result: it
raises (the `astype({"year": int})` on the column-less empty frame is a
`KeyError`); only the `BuildStorageEnergy` family is guarded. -/
theorem extract_build_decisions_empty_dict_raises :
    extract_build_decisions [] = none := by decide

/-- C5 (amended): `parse_timepoints` yields `None` for every requested
variable with no matching entries and raises nothing on their account (a run
where all requested variables are absent returns `{key: None}` for each key),
and `extract_build_decisions`, *when it returns*, yields the explicitly empty
`['year', 's_id', 'capacity']` frame for an absent `BuildStorageEnergy`
family; but absence of `BuildGen` (or `BuildTx`) entries makes it raise
instead. -/
theorem parse_and_extract_absent_variables :
    (∀ (vd : List (List Char × ℚ)) (keys : List (List Char))
        (t2tp : List (Nat × Nat)),
      (∀ key ∈ keys, ∀ kv ∈ vd, pymatch key kv.1 = none) →
      parse_timepoints vd keys t2tp = some (keys.map (fun k => (k, none)))) ∧
    (∀ (vd : List (List Char × ℚ)) (keys : List (List Char))
        (t2tp : List (Nat × Nat)) res key,
      parse_timepoints vd keys t2tp = some res → key ∈ keys →
      (∀ kv ∈ vd, pymatch key kv.1 = none) →
      (key, none) ∈ res) ∧
    (∀ (vd : List (List Char × ℚ)) (g t st : PyDF),
      extract_build_decisions vd = some (g, t, st) →
      (∀ kv ∈ vd, matchBuild "BuildStorageEnergy".data kv.1 = none) →
      st = emptyStorageDF) := by
  refine ⟨?_, ?_, ?_⟩
  · intro vd keys t2tp h
    induction keys with
    | nil => rfl
    | cons key rest ih =>
      have hkey : match_variables_pt vd key = some [] :=
        matchRowsPt_empty vd key (h key (List.mem_cons_self _ _))
      show (match match_variables_pt vd key with
            | none => none
            | some ms =>
              if ms.isEmpty then
                match parse_timepoints vd rest t2tp with
                | none => none
                | some r => some ((key, none) :: r)
              else
                match parseOneVariable ms t2tp with
                | none => none
                | some df =>
                  match parse_timepoints vd rest t2tp with
                  | none => none
                  | some r => some ((key, some df) :: r)) = _
      rw [hkey]
      show (match parse_timepoints vd rest t2tp with
            | none => none
            | some r => some ((key, none) :: r)) = _
      rw [ih (fun k hk => h k (List.mem_cons_of_mem _ hk))]
      rfl
  · intro vd keys t2tp res key hparse hkey hnone
    induction keys generalizing res with
    | nil => cases hkey
    | cons key' rest ih =>
      revert hparse
      show (match match_variables_pt vd key' with
            | none => none
            | some ms =>
              if ms.isEmpty then
                match parse_timepoints vd rest t2tp with
                | none => none
                | some r => some ((key', none) :: r)
              else
                match parseOneVariable ms t2tp with
                | none => none
                | some df =>
                  match parse_timepoints vd rest t2tp with
                  | none => none
                  | some r => some ((key', some df) :: r)) = some res →
        (key, none) ∈ res
      cases hmv : match_variables_pt vd key' with
      | none => intro h; exact Option.noConfusion h
      | some ms =>
        show (if ms.isEmpty then
                match parse_timepoints vd rest t2tp with
                | none => none
                | some r => some ((key', none) :: r)
              else
                match parseOneVariable ms t2tp with
                | none => none
                | some df =>
                  match parse_timepoints vd rest t2tp with
                  | none => none
                  | some r => some ((key', some df) :: r)) = some res →
          (key, none) ∈ res
        by_cases hemp : ms.isEmpty
        · rw [if_pos hemp]
          cases hrest : parse_timepoints vd rest t2tp with
          | none => intro h; exact Option.noConfusion h
          | some r =>
            intro h
            injection h with h
            rcases List.mem_cons.mp hkey with rfl | hkey'
            · rw [← h]; exact List.mem_cons_self _ _
            · rw [← h]; exact List.mem_cons_of_mem _ (ih r hrest hkey')
        · rw [if_neg hemp]
          cases hone : parseOneVariable ms t2tp with
          | none => intro h; exact Option.noConfusion h
          | some df =>
            cases hrest : parse_timepoints vd rest t2tp with
            | none => intro h; exact Option.noConfusion h
            | some r =>
              intro h
              injection h with h
              rcases List.mem_cons.mp hkey with rfl | hkey'
              · exfalso
                have hempty : match_variables_pt vd key = some [] :=
                  matchRowsPt_empty vd key hnone
                rw [hmv] at hempty
                injection hempty with hempty
                rw [hempty] at hemp
                exact hemp rfl
              · rw [← h]; exact List.mem_cons_of_mem _ (ih r hrest hkey')
  · intro vd g t st hex hno
    have hs : match_variables_build vd "BuildStorageEnergy".data = some [] :=
      matchRowsBuild_empty vd _ hno
    unfold extract_build_decisions at hex
    cases hmg : match_variables_build vd "BuildGen".data with
    | none => rw [hmg] at hex; exact Option.noConfusion hex
    | some msg =>
      rw [hmg] at hex
      have hex1 : (match astypeYearInt (mkBuildDF msg "gen_id".data) with
          | none => none
          | some build_gen =>
            match match_variables_build vd "BuildTx".data with
            | none => none
            | some mst =>
              match astypeYearInt (mkBuildDF mst "tx_id".data) with
              | none => none
              | some build_tx =>
                match match_variables_build vd "BuildStorageEnergy".data with
                | none => none
                | some mss =>
                  let sdf := mkBuildDF mss "s_id".data
                  let sdf := if sdf.cols = [] ∧ sdf.rows = [] then
                      (⟨["year".data, "s_id".data, "capacity".data], []⟩ : PyDF)
                    else sdf
                  match astypeYearInt sdf with
                  | none => none
                  | some build_storage_energy =>
                      some (build_gen, build_tx, build_storage_energy)) =
          some (g, t, st) := hex
      cases hag : astypeYearInt (mkBuildDF msg "gen_id".data) with
      | none => rw [hag] at hex1; exact Option.noConfusion hex1
      | some bg =>
        rw [hag] at hex1
        have hex2 : (match match_variables_build vd "BuildTx".data with
            | none => none
            | some mst =>
              match astypeYearInt (mkBuildDF mst "tx_id".data) with
              | none => none
              | some build_tx =>
                match match_variables_build vd "BuildStorageEnergy".data with
                | none => none
                | some mss =>
                  let sdf := mkBuildDF mss "s_id".data
                  let sdf := if sdf.cols = [] ∧ sdf.rows = [] then
                      (⟨["year".data, "s_id".data, "capacity".data], []⟩ : PyDF)
                    else sdf
                  match astypeYearInt sdf with
                  | none => none
                  | some build_storage_energy =>
                      some (bg, build_tx, build_storage_energy)) =
            some (g, t, st) := hex1
        cases hmt : match_variables_build vd "BuildTx".data with
        | none => rw [hmt] at hex2; exact Option.noConfusion hex2
        | some mst =>
          rw [hmt] at hex2
          have hex3 : (match astypeYearInt (mkBuildDF mst "tx_id".data) with
              | none => none
              | some build_tx =>
                match match_variables_build vd "BuildStorageEnergy".data with
                | none => none
                | some mss =>
                  let sdf := mkBuildDF mss "s_id".data
                  let sdf := if sdf.cols = [] ∧ sdf.rows = [] then
                      (⟨["year".data, "s_id".data, "capacity".data], []⟩ : PyDF)
                    else sdf
                  match astypeYearInt sdf with
                  | none => none
                  | some build_storage_energy =>
                      some (bg, build_tx, build_storage_energy)) =
              some (g, t, st) := hex2
          cases hat : astypeYearInt (mkBuildDF mst "tx_id".data) with
          | none => rw [hat] at hex3; exact Option.noConfusion hex3
          | some bt =>
            rw [hat] at hex3
            have hex4 : (match match_variables_build vd "BuildStorageEnergy".data with
                | none => none
                | some mss =>
                  let sdf := mkBuildDF mss "s_id".data
                  let sdf := if sdf.cols = [] ∧ sdf.rows = [] then
                      (⟨["year".data, "s_id".data, "capacity".data], []⟩ : PyDF)
                    else sdf
                  match astypeYearInt sdf with
                  | none => none
                  | some build_storage_energy =>
                      some (bg, bt, build_storage_energy)) =
                some (g, t, st) := hex3
            rw [hs] at hex4
            have hex5 : some (bg, bt, emptyStorageDF) = some (g, t, st) := hex4
            injection hex5 with h
            injection h with h1 h
            injection h with h2 h3
            exact h3.symm

/-- Witness for C5: with a dictionary holding one `BuildGen` and one `BuildTx`
entry and no `BuildStorageEnergy` entries, `parse_timepoints` maps the absent
`BuildStorageEnergy` variable to `None`, and `extract_build_decisions`
returns, with the storage frame explicitly empty. -/
theorem parse_and_extract_absent_variables_witness :
    parse_timepoints
      [("BuildGen[g1,2030]".data, 1), ("BuildTx[1ac,2030]".data, 2)]
      ["BuildStorageEnergy".data] [] = some [("BuildStorageEnergy".data, none)] ∧
    extract_build_decisions
      [("BuildGen[g1,2030]".data, 1), ("BuildTx[1ac,2030]".data, 2)] =
      some (⟨["year".data, "gen_id".data, "capacity".data],
              [[PyCell.z 2030, PyCell.s "g1".data, PyCell.q 1]]⟩,
            ⟨["year".data, "tx_id".data, "capacity".data],
              [[PyCell.z 2030, PyCell.s "1ac".data, PyCell.q 2]]⟩,
            emptyStorageDF) :=
  ⟨parse_and_extract_absent_variables.1
      [("BuildGen[g1,2030]".data, 1), ("BuildTx[1ac,2030]".data, 2)]
      ["BuildStorageEnergy".data] [] (by decide),
    by decide⟩

/-- Sorted distinct values, the key order of a pandas `groupby`. -/
def sortedDedupNat (l : List Nat) : List Nat := pySorted l.dedup

/-- The timeseries a timepoint id belongs to, via the `timepoints` table
(`none` when the id is absent from the table — pandas drops such entries from
the grouping). -/
def tsOfTimepoint (timepoints : List TimepointRow) (v : Nat) : Option Nat :=
  (timepoints.find? (fun r => r.tp_id == v)).map (fun r => r.timeseries)

/-- The `hours` series of `build_timeseries` at one timeseries key:
`timestamp_to_timepoints.value_counts().groupby(timepoints.timeseries).sum()`.
`none` models the key being absent from the series (no timestamp maps to any
timepoint of this timeseries), which turns into NaN on alignment. -/
def hoursOfTs (timepoints : List TimepointRow) (t2tp : List (Nat × Nat))
    (ts : Nat) : Option Nat :=
  let vs := ((t2tp.map (fun p => p.2)).dedup).filter
    (fun v => tsOfTimepoint timepoints v == some ts)
  if vs.isEmpty then none
  else some ((vs.map (fun v => (t2tp.filter (fun p => p.2 == v)).length)).sum)

/-- One row of the `timeseries` output table. -/
structure TimeseriesRow where
  TIMESERIES : Nat
  ts_period : Int
  ts_duration_of_tp : ℚ
  ts_num_tps : Nat
  ts_scale_to_period : PFloat
deriving DecidableEq

/-- Embedding of `build_timeseries` (profiles_to_switch.py lines 107-126):
group the timepoints by `timeseries` (sorted keys, first row per group),
count the timepoints per timeseries, count the timestamps mapped to each
timeseries via the two-stage `value_counts`-then-group-sum, and set
`ts_scale_to_period = hours / (ts_duration_of_tp * ts_num_tps)` with pandas
float semantics (a timeseries missing from `hours` gets NaN). -/
def build_timeseries (timepoints : List TimepointRow)
    (t2tp : List (Nat × Nat)) : List TimeseriesRow :=
  (sortedDedupNat (timepoints.map (fun r => r.timeseries))).filterMap (fun ts =>
    match (timepoints.filter (fun r => r.timeseries == ts)).head? with
    | none => none
    | some fr =>
        let num := (timepoints.filter (fun r => r.timeseries == ts)).length
        let scale := match hoursOfTs timepoints t2tp ts with
          | none => PFloat.nan
          | some h => pdivQ (h : ℚ) (fr.ts_duration_of_tp * num)
        some ⟨ts, fr.ts_period, fr.ts_duration_of_tp, num, scale⟩)

/-- Specification-side hour count: the number of `(timestamp, timepoint)`
mapping entries whose timepoint belongs to the given timeseries. -/
def mappedHours (timepoints : List TimepointRow) (t2tp : List (Nat × Nat))
    (ts : Nat) : Nat :=
  (t2tp.filter (fun p =>
    timepoints.any (fun r => r.tp_id == p.2 && r.timeseries == ts))).length

theorem sum_map_indicator {vals : List Nat} (hnd : vals.Nodup) (x : Nat) :
    ((vals.map (fun v => if x = v then 1 else 0)).sum) =
      (if x ∈ vals then 1 else 0) := by
  induction vals with
  | nil => simp
  | cons v vs ih =>
    rw [List.map_cons, List.sum_cons, ih (List.nodup_cons.mp hnd).2]
    by_cases hxv : x = v
    · subst hxv
      have hnx : x ∉ vs := (List.nodup_cons.mp hnd).1
      simp [hnx]
    · simp [hxv, List.mem_cons]

theorem sum_map_add_nat (c d : Nat → Nat) (vals : List Nat) :
    (vals.map (fun v => c v + d v)).sum = (vals.map c).sum + (vals.map d).sum := by
  induction vals with
  | nil => rfl
  | cons w ws ih =>
    simp only [List.map_cons, List.sum_cons]
    rw [ih]
    omega

theorem sum_counts_eq_length_filter (P : Nat → Bool) (vals : List Nat)
    (hnd : vals.Nodup) (hP : ∀ v ∈ vals, P v = true) :
    ∀ l : List (Nat × Nat), (∀ p ∈ l, P p.2 = true → p.2 ∈ vals) →
    ((vals.map (fun v => (l.filter (fun p => p.2 == v)).length)).sum =
      (l.filter (fun p => P p.2)).length) := by
  intro l
  induction l with
  | nil => intro _; simp
  | cons p l' ih =>
    intro hmem
    have hmem' : ∀ q ∈ l', P q.2 = true → q.2 ∈ vals :=
      fun q hq => hmem q (List.mem_cons_of_mem _ hq)
    have hsplit : ∀ v, ((p :: l').filter (fun q => q.2 == v)).length =
        (l'.filter (fun q => q.2 == v)).length + (if p.2 = v then 1 else 0) := by
      intro v
      rw [List.filter_cons]
      by_cases hv : p.2 = v
      · simp [hv]
      · simp [hv]
    have hmap : (vals.map (fun v => ((p :: l').filter (fun q => q.2 == v)).length)) =
        vals.map (fun v => (l'.filter (fun q => q.2 == v)).length +
          (if p.2 = v then 1 else 0)) :=
      List.map_congr_left (fun v _ => hsplit v)
    rw [hmap, sum_map_add_nat, ih hmem', sum_map_indicator hnd p.2]
    rw [List.filter_cons]
    by_cases hp : P p.2 = true
    · have hin : p.2 ∈ vals := hmem p (List.mem_cons_self _ _) hp
      simp [hp, hin]
    · have hnot : p.2 ∉ vals := fun hin => hp (hP p.2 hin)
      simp only [hp, Bool.false_eq_true, if_false]
      rw [if_neg hnot]
      omega

theorem mem_insertSorted {x n : Nat} {l : List Nat} :
    x ∈ insertSorted n l ↔ x = n ∨ x ∈ l := by
  induction l with
  | nil => simp [insertSorted]
  | cons m r ih =>
    unfold insertSorted
    by_cases h : n ≤ m
    · simp [h, List.mem_cons]
    · simp only [h, if_false, List.mem_cons, ih]
      tauto

theorem mem_pySorted {x : Nat} {l : List Nat} : x ∈ pySorted l ↔ x ∈ l := by
  induction l with
  | nil => simp [pySorted]
  | cons m r ih =>
    show x ∈ insertSorted m (pySorted r) ↔ _
    rw [mem_insertSorted, ih, List.mem_cons]

theorem any_eq_tsOf (timepoints : List TimepointRow)
    (hnd : (timepoints.map (fun r => r.tp_id)).Nodup) (v ts : Nat) :
    timepoints.any (fun r => r.tp_id == v && r.timeseries == ts) =
      (tsOfTimepoint timepoints v == some ts) := by
  induction timepoints with
  | nil => rfl
  | cons r rest ih =>
    have hnd' : (rest.map (fun r => r.tp_id)).Nodup := (List.nodup_cons.mp hnd).2
    rw [List.any_cons]
    unfold tsOfTimepoint
    rw [List.find?_cons]
    by_cases hv : r.tp_id = v
    · have hbeq : (r.tp_id == v) = true := by simp [hv]
      rw [hbeq]
      simp only [Bool.true_and]
      have hnot : v ∉ rest.map (fun r => r.tp_id) := by
        rw [← hv]
        exact (List.nodup_cons.mp hnd).1
      have hrest : rest.any (fun r => r.tp_id == v && r.timeseries == ts) = false := by
        rw [List.any_eq_false]
        intro q hq
        simp only [Bool.and_eq_true, beq_iff_eq, not_and]
        intro hqv
        exact absurd (List.mem_map.mpr ⟨q, hq, hqv⟩) hnot
      rw [hrest, Bool.or_false]
      simp
    · have hbeq : (r.tp_id == v) = false := by simp [hv]
      rw [hbeq]
      simp only [Bool.false_and, Bool.false_or]
      exact ih hnd'

theorem hoursOfTs_eq_mappedHours (timepoints : List TimepointRow)
    (t2tp : List (Nat × Nat)) (ts : Nat)
    (hnd : (timepoints.map (fun r => r.tp_id)).Nodup)
    (hpos : 0 < mappedHours timepoints t2tp ts) :
    hoursOfTs timepoints t2tp ts = some (mappedHours timepoints t2tp ts) := by
  have hfe : ∀ p : Nat × Nat,
      (timepoints.any (fun r => r.tp_id == p.2 && r.timeseries == ts)) =
      (tsOfTimepoint timepoints p.2 == some ts) :=
    fun p => any_eq_tsOf timepoints hnd p.2 ts
  have hfilter : t2tp.filter (fun p =>
        timepoints.any (fun r => r.tp_id == p.2 && r.timeseries == ts)) =
      t2tp.filter (fun p => tsOfTimepoint timepoints p.2 == some ts) :=
    List.filter_congr (fun p _ => hfe p)
  set vs := ((t2tp.map (fun p => p.2)).dedup).filter
    (fun v => tsOfTimepoint timepoints v == some ts) with hvs
  have hvnd : vs.Nodup := (List.nodup_dedup _).filter _
  have hvP : ∀ v ∈ vs, (tsOfTimepoint timepoints v == some ts) = true :=
    fun v hv => (List.mem_filter.mp hv).2
  have hvmem : ∀ p ∈ t2tp, (tsOfTimepoint timepoints p.2 == some ts) = true →
      p.2 ∈ vs := by
    intro p hp hP2
    rw [hvs]
    exact List.mem_filter.mpr
      ⟨List.mem_dedup.mpr (List.mem_map.mpr ⟨p, hp, rfl⟩), hP2⟩
  have hsum := sum_counts_eq_length_filter
    (fun v => tsOfTimepoint timepoints v == some ts) vs hvnd hvP t2tp hvmem
  have hnonempty : ¬ vs.isEmpty = true := by
    unfold mappedHours at hpos
    rw [hfilter] at hpos
    obtain ⟨p, hpmem⟩ : ∃ p : Nat × Nat, p ∈ t2tp.filter
        (fun p => tsOfTimepoint timepoints p.2 == some ts) := by
      cases hl : t2tp.filter (fun p => tsOfTimepoint timepoints p.2 == some ts) with
      | nil => rw [hl] at hpos; cases hpos
      | cons q r => exact ⟨q, List.mem_cons_self _ _⟩
    have hin := hvmem p (List.mem_of_mem_filter hpmem) ((List.mem_filter.mp hpmem).2)
    intro hempty
    rw [List.isEmpty_iff] at hempty
    rw [hempty] at hin
    cases hin
  show (if vs.isEmpty then none
        else some ((vs.map (fun v => (t2tp.filter (fun p => p.2 == v)).length)).sum)) = _
  rw [if_neg hnonempty, hsum]
  unfold mappedHours
  rw [hfilter]

/-- C3 counterexample: a table with one timepoint in timeseries 7 and an
empty timestamp-to-timepoint mapping.  Since no timestamp maps to the
timeseries, the two-stage hour count leaves timeseries 7 out of the `hours`
series and the aligned division yields NaN — not the claimed
`hours / (duration × num_tps) = 0 / (1 × 1) = 0`. -/
theorem build_timeseries_no_mapped_timestamps_nan :
    build_timeseries [⟨1, 100, 7, 2030, 1⟩] [] = [⟨7, 2030, 1, 1, PFloat.nan⟩] ∧
    (PFloat.nan ≠ PFloat.fin ((0 : ℚ) / (1 * 1))) := by
  constructor
  · decide
  · intro h
    exact PFloat.noConfusion h

/-- C3 (amended): for every timepoints table (with unique timepoint ids) and
timestamp-to-timepoint mapping, and every timeseries with at least one mapped
timestamp and a nonzero `duration × count` product, `build_timeseries` emits
a row for that timeseries with `ts_num_tps` the number of its timepoints and
`ts_scale_to_period = hours / (ts_duration_of_tp × ts_num_tps)` where `hours`
is the number of timestamps mapped to the timeseries via the timepoints.
(A timeseries with no mapped timestamps instead gets a NaN scale.) -/
theorem build_timeseries_row_spec (timepoints : List TimepointRow)
    (t2tp : List (Nat × Nat)) (ts : Nat) (fr : TimepointRow)
    (hnd : (timepoints.map (fun r => r.tp_id)).Nodup)
    (hfr : (timepoints.filter (fun r => r.timeseries == ts)).head? = some fr)
    (hpos : 0 < mappedHours timepoints t2tp ts)
    (hden : fr.ts_duration_of_tp *
      ((timepoints.filter (fun r => r.timeseries == ts)).length : ℚ) ≠ 0) :
    (⟨ts, fr.ts_period, fr.ts_duration_of_tp,
        (timepoints.filter (fun r => r.timeseries == ts)).length,
        PFloat.fin ((mappedHours timepoints t2tp ts : ℚ) /
          (fr.ts_duration_of_tp *
            ((timepoints.filter (fun r => r.timeseries == ts)).length : ℚ)))⟩ :
      TimeseriesRow) ∈ build_timeseries timepoints t2tp := by
  apply List.mem_filterMap.mpr
  refine ⟨ts, ?_, ?_⟩
  · have hne : timepoints.filter (fun r => r.timeseries == ts) ≠ [] := by
      intro h
      rw [h] at hfr
      cases hfr
    obtain ⟨r, hrmem⟩ : ∃ r : TimepointRow,
        r ∈ timepoints.filter (fun r => r.timeseries == ts) := by
      cases hl : timepoints.filter (fun r => r.timeseries == ts) with
      | nil => exact absurd hl hne
      | cons q rest => exact ⟨q, List.mem_cons_self _ _⟩
    have hts : r.timeseries = ts := by
      have h2 := (List.mem_filter.mp hrmem).2
      simpa using h2
    apply mem_pySorted.mpr
    apply List.mem_dedup.mpr
    exact List.mem_map.mpr ⟨r, List.mem_of_mem_filter hrmem, hts⟩
  · rw [hfr]
    show some _ = _
    congr 1
    rw [hoursOfTs_eq_mappedHours timepoints t2tp ts hnd hpos]
    show TimeseriesRow.mk _ _ _ _
      (pdivQ (mappedHours timepoints t2tp ts : ℚ) _) = _
    unfold pdivQ
    rw [if_neg hden]

/-- Witness for the amended C3: two timepoints in timeseries 7, three mapped
timestamps, duration 1: the row for timeseries 7 has 2 timepoints and scale
3 / (1 × 2). -/
theorem build_timeseries_row_spec_witness :
    (⟨7, 2030, 1,
        (List.filter (fun r => r.timeseries == 7)
          ([⟨1, 100, 7, 2030, 1⟩, ⟨2, 101, 7, 2030, 1⟩] : List TimepointRow)).length,
        PFloat.fin ((mappedHours
            ([⟨1, 100, 7, 2030, 1⟩, ⟨2, 101, 7, 2030, 1⟩] : List TimepointRow)
            [(100, 1), (101, 1), (102, 2)] 7 : ℚ) /
          (1 * ((List.filter (fun r => r.timeseries == 7)
            ([⟨1, 100, 7, 2030, 1⟩, ⟨2, 101, 7, 2030, 1⟩] : List TimepointRow)).length : ℚ)))⟩ :
      TimeseriesRow) ∈
      build_timeseries [⟨1, 100, 7, 2030, 1⟩, ⟨2, 101, 7, 2030, 1⟩]
        [(100, 1), (101, 1), (102, 2)] :=
  build_timeseries_row_spec
    [⟨1, 100, 7, 2030, 1⟩, ⟨2, 101, 7, 2030, 1⟩]
    [(100, 1), (101, 1), (102, 2)] 7 ⟨1, 100, 7, 2030, 1⟩
    (by decide) rfl (by decide)
    (by show (1 : ℚ) * ((2 : Nat) : ℚ) ≠ 0
        norm_num)

/-- One row of `grid.branch`. -/
structure Branch where
  branch_id : Nat
  from_bus_id : Nat
  to_bus_id : Nat
  rateA : ℚ
  x : ℚ
deriving DecidableEq

/-- One row of `grid.dcline`. -/
structure DcLine where
  dcline_id : Nat
  Pmax : ℚ
  Pmin : ℚ
deriving DecidableEq

/-- One row of the `build_tx` decision frame (columns `year`, `tx_id`,
`capacity`). -/
structure TxRow where
  year : Int
  tx_id : List Char
  capacity : ℚ
deriving DecidableEq

/-- `tuple(sorted((a, b)))`: the unordered bus pair. -/
def sortedPair (a b : Nat) : Nat × Nat := if a ≤ b then (a, b) else (b, a)

/-- `ind[-2:] == "ac"`: branch tags ending in `ac` are AC, everything else is
treated as DC by `recover_branch_indices`. -/
def endsAC (t : List Char) : Bool :=
  match t.reverse with
  | 'c' :: 'a' :: _ => true
  | _ => false

/-- `int(ind[:-2])`: the original branch id of a branch tag. -/
def parseBranchTag (t : List Char) : Option Nat := parseNat (t.dropLast.dropLast)

/-- The AC upgrade rows for a year:
`build_tx.query("year == @year and tx_id in @ac_branch_ids and capacity > 0")`
(membership in the ac series' values is equivalent to the `ac` suffix, since
the series is built from `build_tx` itself). -/
def acUpgradesOf (build_tx : List TxRow) (year : Int) : List TxRow :=
  build_tx.filter (fun r =>
    r.year == year && endsAC r.tx_id && decide (0 < r.capacity))

/-- The AC upgrades paired with their target branch row, restricted to
branches with positive `rateA`
(`original_index_upgrades.loc[grid.branch.rateA > 0]`). -/
def keptUpgrades (branch : List Branch) (build_tx : List TxRow) (year : Int) :
    List (Branch × ℚ) :=
  ((acUpgradesOf build_tx year).filterMap (fun r =>
    (branch.find? (fun b => some b.branch_id == parseBranchTag r.tx_id)).map
      (fun b => (b, r.capacity)))).filter (fun q => decide (0 < q.1.rateA))

/-- `to_from_capacity`: the total starting `rateA` of all branches sharing an
unordered bus pair. -/
def groupCap (branch : List Branch) (pr : Nat × Nat) : ℚ :=
  ((branch.filter (fun b => sortedPair b.to_bus_id b.from_bus_id == pr)).map
    (fun b => b.rateA)).sum

/-- `to_from_ac_upgrades`: the total upgrade capacity of a bus pair (over the
kept upgrades). -/
def groupUp (branch : List Branch) (build_tx : List TxRow) (year : Int)
    (pr : Nat × Nat) : ℚ :=
  (((keptUpgrades branch build_tx year).filter
    (fun q => sortedPair q.1.to_bus_id q.1.from_bus_id == pr)).map
    (fun q => q.2)).sum

/-- Does the bus pair appear among the kept upgrades?  (Pairs that do not are
NaN in the ratio series and are filled with 1.) -/
def hasGroupUp (branch : List Branch) (build_tx : List TxRow) (year : Int)
    (pr : Nat × Nat) : Bool :=
  (keptUpgrades branch build_tx year).any
    (fun q => sortedPair q.1.to_bus_id q.1.from_bus_id == pr)

/-- `to_from_ac_upgrade_ratios` with
`use_inf_as_na` + `fillna(1)`: pairs without upgrades (NaN) and pairs with a
zero capacity total (inf) both become 1. -/
def acGroupRatio (branch : List Branch) (build_tx : List TxRow) (year : Int)
    (pr : Nat × Nat) : ℚ :=
  if hasGroupUp branch build_tx year pr = true ∧ groupCap branch pr ≠ 0 then
    1 + groupUp branch build_tx year pr / groupCap branch pr
  else 1

/-- The per-branch AC update (switch_to_grid.py lines 104-109): `rateA` is
multiplied by the pair's ratio; `x` is divided by the same ratio, but only
where the *updated* `rateA` is strictly positive. -/
def acBranchUpdate (branch : List Branch) (build_tx : List TxRow) (year : Int)
    (b : Branch) : Branch :=
  let r := acGroupRatio branch build_tx year (sortedPair b.to_bus_id b.from_bus_id)
  { b with rateA := b.rateA * r, x := if 0 < b.rateA * r then b.x / r else b.x }

/-- The per-dcline DC update (switch_to_grid.py lines 110-113):
`dc_upgrades.reindex(grid.dcline.index).fillna(0)` aligns the queried rows'
*positional* indices in `build_tx` against the dcline ids, then the capacity
is added to `Pmax` and subtracted from `Pmin`. -/
def dcLineUpdate (build_tx : List TxRow) (year : Int) (d : DcLine) : DcLine :=
  let add := match ((build_tx.enum.filter (fun q =>
      q.2.year == year && !endsAC q.2.tx_id && decide (0 < q.2.capacity))).find?
      (fun q => q.1 == d.dcline_id)) with
    | some q => q.2.capacity
    | none => 0
  { d with Pmax := d.Pmax + add, Pmin := d.Pmin - add }

/-- Embedding of `add_tx_upgrades_to_grid` (switch_to_grid.py lines 55-113).
`none` models a raised exception: a branch tag whose body is not an integer
(`recover_branch_indices` parses every tag first), or an upgraded id that
labels no branch row (the boolean-mask `.loc` is unalignable). -/
def add_tx_upgrades_to_grid (branch : List Branch) (dcline : List DcLine)
    (build_tx : List TxRow) (year : Int) : Option (List Branch × List DcLine) :=
  if build_tx.all (fun r => (parseBranchTag r.tx_id).isSome) then
    if (acUpgradesOf build_tx year).all (fun r =>
        branch.any (fun c => some c.branch_id == parseBranchTag r.tx_id)) then
      some (branch.map (acBranchUpdate branch build_tx year),
            dcline.map (dcLineUpdate build_tx year))
    else none
  else none

theorem groupUp_nonneg (branch : List Branch) (build_tx : List TxRow)
    (year : Int) (pr : Nat × Nat) : 0 ≤ groupUp branch build_tx year pr := by
  unfold groupUp
  apply List.sum_nonneg
  intro q hq
  obtain ⟨p, hp, hpq⟩ := List.mem_map.mp hq
  have hp2 : p ∈ keptUpgrades branch build_tx year := List.mem_of_mem_filter hp
  unfold keptUpgrades at hp2
  have hp3 := List.mem_of_mem_filter hp2
  obtain ⟨r, hr, hrp⟩ := List.mem_filterMap.mp hp3
  have hrpos : (0 : ℚ) < r.capacity := by
    have := (List.mem_filter.mp hr).2
    simp only [Bool.and_eq_true, decide_eq_true_eq] at this
    exact this.2
  cases hfind : branch.find? (fun b => some b.branch_id == parseBranchTag r.tx_id) with
  | none => rw [hfind] at hrp; cases hrp
  | some b =>
    rw [hfind] at hrp
    injection hrp with hrp
    have : p.2 = r.capacity := by rw [← hrp]
    rw [← hpq, this]
    exact le_of_lt hrpos

theorem groupUp_eq_zero_of_no_up (branch : List Branch) (build_tx : List TxRow)
    (year : Int) (pr : Nat × Nat)
    (h : hasGroupUp branch build_tx year pr = false) :
    groupUp branch build_tx year pr = 0 := by
  unfold groupUp
  unfold hasGroupUp at h
  rw [List.any_eq_false] at h
  have : (keptUpgrades branch build_tx year).filter
      (fun q => sortedPair q.1.to_bus_id q.1.from_bus_id == pr) = [] := by
    rw [List.filter_eq_nil_iff]
    exact fun q hq => by simpa using h q hq
  rw [this]
  rfl

/-- C4 (amended): if every transmission tag parses and every AC upgrade for
the year targets an existing branch, then for every branch `b` with positive
starting `rateA` whose parallel group (unordered bus pair) has positive total
starting capacity, `add_tx_upgrades_to_grid` succeeds and its output contains
`b` with `rateA` multiplied by `ratio = 1 + groupUp / groupCap` and `x`
divided by the same ratio, where `groupUp` counts only this year's positive
upgrades that target positively-rated branches of the group and `groupCap`
is the group's total starting `rateA`.  (Branches with non-positive `rateA`
keep their `x` unchanged — see the counterexample.) -/
theorem add_tx_ac_parallel_group_scaling (branch : List Branch)
    (dcline : List DcLine) (build_tx : List TxRow) (year : Int) (b : Branch)
    (h1 : build_tx.all (fun r => (parseBranchTag r.tx_id).isSome) = true)
    (h2 : (acUpgradesOf build_tx year).all (fun r =>
        branch.any (fun c => some c.branch_id == parseBranchTag r.tx_id)) = true)
    (hb : b ∈ branch) (hbpos : 0 < b.rateA)
    (hcap : 0 < groupCap branch (sortedPair b.to_bus_id b.from_bus_id)) :
    ∃ outB outD,
      add_tx_upgrades_to_grid branch dcline build_tx year = some (outB, outD) ∧
      ({ b with
          rateA := b.rateA *
            (1 + groupUp branch build_tx year (sortedPair b.to_bus_id b.from_bus_id) /
              groupCap branch (sortedPair b.to_bus_id b.from_bus_id)),
          x := b.x /
            (1 + groupUp branch build_tx year (sortedPair b.to_bus_id b.from_bus_id) /
              groupCap branch (sortedPair b.to_bus_id b.from_bus_id)) } : Branch) ∈ outB := by
  refine ⟨branch.map (acBranchUpdate branch build_tx year),
    dcline.map (dcLineUpdate build_tx year), ?_, ?_⟩
  · unfold add_tx_upgrades_to_grid
    rw [if_pos h1, if_pos h2]
  · set pr := sortedPair b.to_bus_id b.from_bus_id with hpr
    have hcapne : groupCap branch pr ≠ 0 := ne_of_gt hcap
    have hupnn := groupUp_nonneg branch build_tx year pr
    have hratio_eq : acGroupRatio branch build_tx year pr =
        1 + groupUp branch build_tx year pr / groupCap branch pr := by
      unfold acGroupRatio
      by_cases hup : hasGroupUp branch build_tx year pr = true
      · rw [if_pos ⟨hup, hcapne⟩]
      · rw [if_neg (fun hc => hup hc.1)]
        have hz : groupUp branch build_tx year pr = 0 :=
          groupUp_eq_zero_of_no_up branch build_tx year pr
            (Bool.eq_false_iff.mpr hup)
        rw [hz, zero_div, add_zero]
    have hratiopos : 0 < 1 + groupUp branch build_tx year pr / groupCap branch pr := by
      have hdivnn : 0 ≤ groupUp branch build_tx year pr / groupCap branch pr :=
        div_nonneg hupnn (le_of_lt hcap)
      linarith
    have hmask : 0 < b.rateA *
        (1 + groupUp branch build_tx year pr / groupCap branch pr) :=
      mul_pos hbpos hratiopos
    have hupd : acBranchUpdate branch build_tx year b =
        { b with
            rateA := b.rateA *
              (1 + groupUp branch build_tx year pr / groupCap branch pr),
            x := b.x /
              (1 + groupUp branch build_tx year pr / groupCap branch pr) } := by
      unfold acBranchUpdate
      rw [← hpr, hratio_eq]
      show ({ branch_id := b.branch_id, from_bus_id := b.from_bus_id,
              to_bus_id := b.to_bus_id,
              rateA := b.rateA *
                (1 + groupUp branch build_tx year pr / groupCap branch pr),
              x := if 0 < b.rateA *
                  (1 + groupUp branch build_tx year pr / groupCap branch pr)
                then b.x / (1 + groupUp branch build_tx year pr / groupCap branch pr)
                else b.x } : Branch) = _
      rw [if_pos hmask]
    rw [← hupd]
    exact List.mem_map_of_mem _ hb

/-- C4 counterexample: two parallel branches (same unordered bus pair), one
rated 100 and one rated 0; the AC upgrade of 100 on the first gives the group
ratio `1 + 100/(100+0) = 2`.  The claim says *every* branch of the group has
its `x` divided by that ratio, i.e. the zero-rated branch's reactance should
become `(1/2)/2 = 1/4`; the code leaves it at `1/2` (the impedance update is
masked to branches whose updated `rateA` is strictly positive). -/
theorem add_tx_zero_rated_branch_x_not_scaled :
    (add_tx_upgrades_to_grid [⟨1, 1, 2, 100, 1⟩, ⟨2, 1, 2, 0, 1 / 2⟩] []
        [⟨2030, "1ac".data, 100⟩] 2030).map (fun out => out.1.get? 1) =
      some (some ⟨2, 1, 2, 0, 1 / 2⟩) ∧
    ((1 : ℚ) / 2 ≠ 1 / 2 / (1 + 100 / (100 + 0))) := by
  constructor
  · unfold add_tx_upgrades_to_grid
    rw [if_pos (by decide), if_pos (by decide)]
    have hupd : acBranchUpdate [⟨1, 1, 2, 100, 1⟩, ⟨2, 1, 2, 0, 1 / 2⟩]
        [⟨2030, "1ac".data, 100⟩] 2030 ⟨2, 1, 2, 0, 1 / 2⟩ = ⟨2, 1, 2, 0, 1 / 2⟩ := by
      unfold acBranchUpdate
      generalize acGroupRatio _ _ _ _ = R
      show ({ branch_id := 2, from_bus_id := 1, to_bus_id := 2,
              rateA := (0 : ℚ) * R,
              x := if (0 : ℚ) < 0 * R then 1 / 2 / R else 1 / 2 } : Branch) =
        ⟨2, 1, 2, 0, 1 / 2⟩
      rw [zero_mul, if_neg (lt_irrefl 0)]
    show some (some (acBranchUpdate [⟨1, 1, 2, 100, 1⟩, ⟨2, 1, 2, 0, 1 / 2⟩]
        [⟨2030, "1ac".data, 100⟩] 2030 ⟨2, 1, 2, 0, 1 / 2⟩)) =
      some (some ⟨2, 1, 2, 0, 1 / 2⟩)
    rw [hupd]
  · norm_num

/-- Witness for the amended C4, at the claim's own example: two parallel
branches rated 200 and 100 (bus pair {1,2}, opposite orientations), each
upgraded by 30 in 2030: both the scaling theorem applies and the shared group
ratio evaluates to `(30+30)/(200+100) + 1 = 6/5 = 1.2`. -/
theorem add_tx_ac_parallel_group_scaling_witness :
    (∃ outB outD,
      add_tx_upgrades_to_grid
          [⟨1, 1, 2, 200, 1⟩, ⟨2, 2, 1, 100, 1⟩] []
          [⟨2030, "1ac".data, 30⟩, ⟨2030, "2ac".data, 30⟩] 2030 =
        some (outB, outD) ∧
      ({ branch_id := 1, from_bus_id := 1, to_bus_id := 2,
          rateA := 200 *
            (1 + groupUp [⟨1, 1, 2, 200, 1⟩, ⟨2, 2, 1, 100, 1⟩]
                [⟨2030, "1ac".data, 30⟩, ⟨2030, "2ac".data, 30⟩] 2030 (sortedPair 2 1) /
              groupCap [⟨1, 1, 2, 200, 1⟩, ⟨2, 2, 1, 100, 1⟩] (sortedPair 2 1)),
          x := 1 /
            (1 + groupUp [⟨1, 1, 2, 200, 1⟩, ⟨2, 2, 1, 100, 1⟩]
                [⟨2030, "1ac".data, 30⟩, ⟨2030, "2ac".data, 30⟩] 2030 (sortedPair 2 1) /
              groupCap [⟨1, 1, 2, 200, 1⟩, ⟨2, 2, 1, 100, 1⟩] (sortedPair 2 1)) } :
        Branch) ∈ outB) ∧
    (1 + groupUp [⟨1, 1, 2, 200, 1⟩, ⟨2, 2, 1, 100, 1⟩]
        [⟨2030, "1ac".data, 30⟩, ⟨2030, "2ac".data, 30⟩] 2030 (sortedPair 2 1) /
      groupCap [⟨1, 1, 2, 200, 1⟩, ⟨2, 2, 1, 100, 1⟩] (sortedPair 2 1)) = 6 / 5 := by
  have hp1 : parseBranchTag "1ac".data = some 1 := by decide
  have hp2 : parseBranchTag "2ac".data = some 2 := by decide
  have hkept : keptUpgrades [⟨1, 1, 2, 200, 1⟩, ⟨2, 2, 1, 100, 1⟩]
      [⟨2030, "1ac".data, 30⟩, ⟨2030, "2ac".data, 30⟩] 2030 =
      [(⟨1, 1, 2, 200, 1⟩, 30), (⟨2, 2, 1, 100, 1⟩, 30)] := by decide
  have hcap : groupCap [⟨1, 1, 2, 200, 1⟩, ⟨2, 2, 1, 100, 1⟩] (sortedPair 2 1) =
      300 := by
    norm_num [groupCap, sortedPair]
  have hup : groupUp [⟨1, 1, 2, 200, 1⟩, ⟨2, 2, 1, 100, 1⟩]
      [⟨2030, "1ac".data, 30⟩, ⟨2030, "2ac".data, 30⟩] 2030 (sortedPair 2 1) = 60 := by
    norm_num [groupUp, hkept, sortedPair]
  refine ⟨add_tx_ac_parallel_group_scaling _ _ _ _ ⟨1, 1, 2, 200, 1⟩
      (by decide) (by decide) (by decide) (by decide) ?_, ?_⟩
  · rw [hcap]; norm_num
  · rw [hcap, hup]; norm_num
